import Mathlib

/-!
Verification of the comunifi/relay transaction relay.

This file gives a shallow embedding, in Lean 4, of the parts of the relay's
Go source that the specification's claims are about, and settles each claim
against that embedding:

* `pkg/relay/legacylog.go` — event-signature parsing (`ParseEventSignature`),
  ABI emission (`ConstructABIFromEventSignature`), data-shape validation
  (`IsValidData`);
* `pkg/relay/topic.go` — indexed-topic-hash decoding (`convertHashToValue`);
* `internal/paymaster/handlers.go` — the `Sponsor` and `OOSponsor` handlers;
* `internal/nostr` (blossom) — the `rejectUpload` admission hook;
* `internal/nostr` (groups) — the NIP-29 `ValidateEvent` enforcer;
* `internal/ethrequest/ethrequest.go` — dynamic-fee transaction construction
  (`NewTx`);
* `internal/queue/userop.go` — the bundler's `Process` method.

Go strings are embedded as `List Char` (`GoStr`), byte strings as `List Nat`
with each element below 256, `uint64` arithmetic as `Nat` with explicit
`% 2 ^ 64` where the Go computation can wrap, and `*big.Int` as `Int`/`Nat`
(arbitrary precision, as in Go).  Effectful collaborators (chain RPC,
database, cryptography) are oracle functions packaged in explicit
environment structures; fallible Go code returns `Except`/`Option`, and Go
panics are a distinguished `GoRes.panicked` outcome.
-/

/-! ## Go string primitives

Embeddings of the `strings`/`strconv` standard-library functions the relay
uses.  Go strings are modelled as `List Char`; `unicode.IsSpace` is modelled
by `Char.isWhitespace` (space, tab, CR, LF — the only whitespace that occurs
in event signatures). -/

/-- A Go string, embedded as its list of characters. -/
abbrev GoStr := List Char

/-- Embeds `strings.TrimSpace`: drop whitespace from both ends. -/
def goTrimSpace (s : GoStr) : GoStr :=
  ((s.dropWhile Char.isWhitespace).reverse.dropWhile Char.isWhitespace).reverse

/-- Embeds `strings.Fields`: split around runs of whitespace, dropping
empty fields. -/
def goFields (s : GoStr) : List GoStr :=
  (List.splitOnP Char.isWhitespace s).filter (fun p => p ≠ [])

/-- Embeds `strings.SplitN(s, "(", 2)`: `none` when `s` contains no `'('`
(Go returns a single part), otherwise the part before the first `'('` and
everything after it. -/
def breakParen : GoStr → Option (GoStr × GoStr)
  | [] => none
  | c :: rest =>
    if c = '(' then some ([], rest)
    else (breakParen rest).map (fun p => (c :: p.1, p.2))

/-- Embeds `strings.TrimSuffix(s, ")")`. -/
def goTrimSuffixParen (s : GoStr) : GoStr :=
  if List.isSuffixOf [')'] s then s.dropLast else s

/-- Embeds `strings.TrimPrefix(s, p)`. -/
def goTrimPre (p s : GoStr) : GoStr :=
  if List.isPrefixOf p s then s.drop p.length else s

/-- Decides whether `pre` is a prefix of `s` (embeds `strings.HasPrefix`). -/
def goStartsWith (pre s : GoStr) : Bool := List.isPrefixOf pre s

/-- Decides whether `sub` occurs inside `s` (embeds `strings.Contains`). -/
def goContainsSub (sub : GoStr) : GoStr → Bool
  | [] => List.isPrefixOf sub []
  | c :: rest => List.isPrefixOf sub (c :: rest) || goContainsSub sub rest

/-- Embeds `strconv.Atoi` on the inputs that occur here: an optional minus
sign followed by decimal digits; `none` models the error return. -/
def goAtoi (s : GoStr) : Option Int :=
  match s with
  | '-' :: rest =>
    if rest ≠ [] ∧ rest.all Char.isDigit then
      some (-(Int.ofNat (rest.foldl (fun a c => a * 10 + (c.toNat - 48)) 0)))
    else none
  | _ =>
    if s ≠ [] ∧ s.all Char.isDigit then
      some (Int.ofNat (s.foldl (fun a c => a * 10 + (c.toNat - 48)) 0))
    else none

/-- Big-endian interpretation of a byte string as a natural number
(embeds `new(big.Int).SetBytes`). -/
def natFromBytes (bs : List Nat) : Nat :=
  bs.foldl (fun a b => a * 256 + b) 0

/-- Lower-case hex digit for a nibble. -/
def hexDigit (n : Nat) : Char :=
  if n < 10 then Char.ofNat (48 + n) else Char.ofNat (87 + n)

/-- Lower-case hex rendering of a byte string, with the `0x` prefix
(embeds `common.Hash.Hex` / `hexutil.Encode`). -/
def hexOfBytes (bs : List Nat) : GoStr :=
  '0' :: 'x' :: bs.foldr (fun b acc => hexDigit (b / 16) :: hexDigit (b % 16) :: acc) []

/-! ## `pkg/relay/legacylog.go` — event signatures

`Event` carries the registry row's fields that the parsing functions read
(`CreatedAt`/`UpdatedAt` timestamps are never consulted and are omitted). -/

/-- One parsed argument type: the ABI type name and its `indexed` flag
(embeds `relay.ArgType`). -/
structure ArgType where
  name : GoStr
  indexed : Bool
deriving DecidableEq

/-- A registry event row (embeds `relay.Event`, timestamps omitted). -/
structure Event where
  contract : GoStr
  eventSignature : GoStr
  name : GoStr
deriving DecidableEq

/-- Embeds the body of the argument loop of `Event.ParseEventSignature` for
one comma-separated token `arg0` at raw index `i`: `none` models `continue`
(the token is skipped), `some (argName, argType)` models appending to both
output slices. -/
def parseArg (i : Nat) (arg0 : GoStr) : Option (GoStr × ArgType) :=
  let arg := goTrimSpace arg0
  if arg = [] then none
  else
    match goFields arg with
    | [] => none
    | p0 :: prest =>
      -- "index_topic_N" prefix: mark indexed and drop the token
      let s1 : Bool × List GoStr :=
        if goStartsWith (("index_topic_").data) p0 then (true, prest)
        else (false, p0 :: prest)
      -- "indexed" keyword in the first two tokens: mark indexed and drop it
      let s2 : Bool × List GoStr :=
        match s1.2 with
        | a :: b :: rest =>
          if a = ("indexed").data ∨ b = ("indexed").data then
            (true, if a = ("indexed").data then b :: rest else a :: rest)
          else (false, a :: b :: rest)
        | other => (false, other)
      let isIndexed := s1.1 || s2.1
      match s2.2 with
      | [t, nm] => if t ≠ [] then some (nm, ⟨t, isIndexed⟩) else none
      | [t] => if t ≠ [] then some ((Nat.repr i).data, ⟨t, isIndexed⟩) else none
      | _ => none

/-- The argument loop of `ParseEventSignature`: fold `parseArg` over the
comma-split tokens, numbering them from `i` (the Go loop appends to two
slices in step; this right recursion builds the same two lists). -/
def parseArgsAux : Nat → List GoStr → List GoStr × List ArgType
  | _, [] => ([], [])
  | i, arg :: rest =>
    let r := parseArgsAux (i + 1) rest
    match parseArg i arg with
    | none => r
    | some (n, t) => (n :: r.1, t :: r.2)

/-- Embeds `Event.ParseEventSignature`: returns
`(name, argNames, argTypes)`, with the empty triple for signatures without
a `(` or with an empty name. -/
def ParseEventSignature (e : Event) : GoStr × List GoStr × List ArgType :=
  if e.eventSignature = [] then ([], [], [])
  else
    match breakParen e.eventSignature with
    | none => ([], [], [])
    | some (pre, post) =>
      let eventName := goTrimSpace pre
      if eventName = [] then ([], [], [])
      else
        let rawArgs := goTrimSuffixParen post
        let argParts := List.splitOn ',' rawArgs
        let r := parseArgsAux 0 argParts
        (eventName, r.1, r.2)

/-- Embeds `Event.IsValidData`, applied to the key set of the candidate
`map[string]any` (a Go map has pairwise-distinct keys; only the key set is
inspected by the source). -/
def IsValidData (e : Event) (dataKeys : List GoStr) : Bool :=
  let argNames := (ParseEventSignature e).2.1
  if dataKeys.length ≠ argNames.length + 1 then false
  else if ¬ dataKeys.contains (("topic").data) then false
  else argNames.all (fun n => dataKeys.contains n)

/-! ## `ConstructABIFromEventSignature` and its JSON grammar

The emitter concatenates fixed JSON fragments with the parsed names and
types; the fragments below are exactly the pieces of the Go format strings,
split at the positions convenient for the grammar proofs. -/

/-- JSON fragment `[{"name":"` opening the ABI array. -/
def litOuterPre : GoStr := ("[\x7b\"name\":\"").data

/-- JSON fragment `","type":"event","inputs":[` after the event name
(the name's closing quote is kept separate). -/
def litOuterMid : GoStr := ((",\"type\":\"event\",\"inputs\":[").data)

/-- JSON fragment `{"name":"` opening one input object. -/
def litItemPre : GoStr := ("\x7b\"name\":\"").data

/-- JSON fragment `","type":"` after an input name. -/
def litItemType : GoStr := ((",\"type\":\"").data)

/-- JSON fragment `","indexed":` after an input type. -/
def litItemIndexed : GoStr := ((",\"indexed\":").data)

/-- The Go `%t` rendering of `true`. -/
def litTrue : GoStr := ("true").data

/-- The Go `%t` rendering of `false`. -/
def litFalse : GoStr := ("false").data

/-- JSON fragment `]}]` closing the ABI array. -/
def litEnd : GoStr := ("]\x7d]").data

/-- The JSON fragment for one ABI input
(`{"name":"N","type":"T","indexed":B}`). -/
def abiInput (n : GoStr) (t : ArgType) : GoStr :=
  litItemPre ++ n ++ ['"'] ++ litItemType ++ t.name
    ++ ['"'] ++ litItemIndexed
    ++ (if t.indexed then litTrue else litFalse) ++ ['\x7d']

/-- The comma-joined ABI inputs, mirroring the Go loop that adds a comma
after every input but the last. -/
def abiInputs : List (GoStr × ArgType) → GoStr
  | [] => []
  | [(n, t)] => abiInput n t
  | (n, t) :: rest => abiInput n t ++ [','] ++ abiInputs rest

/-- Zips argument names with argument types in lockstep; the Go loop indexes
`argTypes[i]` while ranging over `args`, which is the same pairing because
the parser always extends both slices together. -/
def zipArgs : List GoStr → List ArgType → List (GoStr × ArgType)
  | n :: ns, t :: ts => (n, t) :: zipArgs ns ts
  | _, _ => []

/-- Embeds `Event.ConstructABIFromEventSignature`: parse the signature and
emit the one-element JSON ABI array, failing when the name or argument
lists are empty or when any argument type is empty. -/
def ConstructABIFromEventSignature (e : Event) : Except GoStr GoStr :=
  let r := ParseEventSignature e
  if r.1 = [] ∨ r.2.1 = [] ∨ r.2.2 = [] then
    .error (("event name is required").data)
  else if r.2.2.any (fun t => t.name = []) then
    .error (("argument type is empty").data)
  else
    .ok (litOuterPre ++ r.1 ++ ['"'] ++ litOuterMid
      ++ abiInputs (zipArgs r.2.1 r.2.2) ++ litEnd)

/-! ## Specification-side extraction of the emitted ABI

`extractEventTriple` is a definition written from the specification's
round-trip property (§8), not from the Go source: it recovers the
`(name, argNames, argTypes)` triple encoded in the JSON emitted by
`ConstructABIFromEventSignature`.  It is the comparison point for claim C4:
the spec's round trip holds with this extraction where it fails with
`ParseEventSignature` itself. -/

/-- Consume an exact literal prefix. -/
def dropLit : GoStr → GoStr → Option GoStr
  | [], s => some s
  | _ :: _, [] => none
  | c :: p, d :: s => if c = d then dropLit p s else none

/-- Consume up to and including the next `'"'`, returning the consumed
characters (the quoted field) and the remainder. -/
def scanQuote : GoStr → Option (GoStr × GoStr)
  | [] => none
  | c :: rest =>
    if c = '"' then some ([], rest)
    else (scanQuote rest).map (fun p => (c :: p.1, p.2))

/-- After one parsed input object: a comma continues with the next object
(via `rec`), the closing `]}]` ends the list. -/
def parseInputsTail (rec : GoStr → Option (List (GoStr × ArgType)))
    (entry : GoStr × ArgType) : GoStr → Option (List (GoStr × ArgType))
  | [] => none
  | c :: rest =>
    if c = ',' then (rec rest).map (fun l => entry :: l)
    else if c :: rest = litEnd then some [entry] else none

/-- Parse the comma-separated ABI input objects followed by the closing
`]}]`; `fuel` bounds the recursion (one unit per input). -/
def parseInputs : Nat → GoStr → Option (List (GoStr × ArgType))
  | 0, _ => none
  | fuel + 1, s => do
    let s ← dropLit litItemPre s
    let (n, s) ← scanQuote s
    let s ← dropLit litItemType s
    let (t, s) ← scanQuote s
    let s ← dropLit litItemIndexed s
    let (b, s) ←
      match dropLit litTrue s with
      | some s1 => some (true, s1)
      | none =>
        match dropLit litFalse s with
        | some s1 => some (false, s1)
        | none => none
    let s ← dropLit ['\x7d'] s
    parseInputsTail (parseInputs fuel) (n, ⟨t, b⟩) s

/-- Recover the `(name, argNames, argTypes)` triple from an ABI JSON string
of the exact shape emitted by `ConstructABIFromEventSignature`. -/
def extractEventTriple (s : GoStr) : Option (GoStr × List GoStr × List ArgType) := do
  let s ← dropLit litOuterPre s
  let (name, s) ← scanQuote s
  let s ← dropLit litOuterMid s
  let ps ← parseInputs s.length s
  some (name, ps.map Prod.fst, ps.map Prod.snd)

/-! ## Concrete inputs for the legacylog claims -/

/-- An event whose signature has a duplicated argument name. -/
def evC3 : Event :=
  { contract := [], eventSignature := ("E(uint256 a, uint256 a)").data, name := [] }

/-- Candidate data keys: `topic` and `a` as required, plus the unrelated
extra key `b`. -/
def keysC3 : List GoStr := [("topic").data, ("a").data, ("b").data]

/-- The ERC-20 Transfer registry event (indexed form, as in the test
suite). -/
def evTransfer : Event :=
  { contract := []
    eventSignature :=
      ("Transfer(address indexed from, address indexed to, uint256 value)").data
    name := ("Transfer").data }

/-- Keys of a decoded Transfer topic bundle. -/
def keysTransfer : List GoStr :=
  [("topic").data, ("from").data, ("to").data, ("value").data]

/-- The compact ERC-20 Transfer signature (end-to-end scenario 1 of the
spec). -/
def evC4 : Event :=
  { contract := [], eventSignature := ("Transfer(address,address,uint256)").data
    name := [] }

/-- The ABI JSON emitted for `evC4` (total projection of the emitter's
`Except` result). -/
def abiC4 : GoStr :=
  match ConstructABIFromEventSignature evC4 with
  | .ok s => s
  | .error _ => []

/-! ## `pkg/relay/topic.go` — indexed-topic-hash decoding

`convertHashToValue` receives the declared ABI type and the 32-byte topic
hash.  `big.Int.And` with the low mask `2^bitSize - 1` on a non-negative
value is `% 2 ^ bitSize`; `big.Int.Neg` is integer negation.  For the
nonsensical declared types `int0`/`int-N` (where Go panics on a negative
bit index) this model evaluates `testBit 0`; no claim concerns them.
`bytes<N>` with `N > 32` would panic in Go; `List.take` clamps instead —
again outside every claim. -/

/-- A decoded topic value (the dynamic `any` stored in `Topic.Value`). -/
inductive TopicVal where
  | boolV (b : Bool)
  | addressV (bytes : List Nat)
  | hexV (s : GoStr)
  | intV (i : Int)
  | bytesV (bs : List Nat)
deriving DecidableEq

/-- Embeds `Topic.convertHashToValue` from `pkg/relay/topic.go`: decode a
32-byte topic hash at the declared type. -/
def convertHashToValue (ty : GoStr) (bytes : List Nat) : Except GoStr TopicVal :=
  if ty = ("bool").data then .ok (.boolV (bytes.getD 31 0 ≠ 0))
  else if ty = ("address").data then .ok (.addressV (bytes.drop 12))
  else if ty = ("string").data ∨ ty = ("bytes").data then
    .ok (.hexV (hexOfBytes bytes))
  else if goStartsWith (("uint").data) ty || goStartsWith (("int").data) ty then
    let bitSize : Int :=
      match goAtoi (goTrimPre (("int").data) (goTrimPre (("uint").data) ty)) with
      | some n => n
      | none => 256
    let value : Nat := natFromBytes bytes
    if goStartsWith (("int").data) ty ∧ bitSize < 256 then
      if value.testBit (bitSize - 1).toNat then
        .ok (.intV (-(Int.ofNat (value % 2 ^ bitSize.toNat))))
      else .ok (.intV (Int.ofNat value))
    else .ok (.intV (Int.ofNat value))
  else if goStartsWith (("bytes").data) ty then
    match goAtoi (goTrimPre (("bytes").data) ty) with
    | none => .error (("invalid bytes type").data)
    | some size => .ok (.bytesV (bytes.take size.toNat))
  else .error (("unsupported type").data)

/-- The 32-byte topic hash `0x00…00ff`: the int8 encoding whose
two's-complement reading is `-1`. -/
def bytesC2 : List Nat := List.replicate 31 0 ++ [255]

/-! ## `internal/paymaster/handlers.go` — Sponsor and OOSponsor

The HTTP/JSON plumbing (URL parameter, `params` array decoding with its
defaults) is outside the embedding per the spec's scope: the handlers are
modelled from the point where `userop`, `epAddr`, the `type` hint and
`amount` are in hand.  Chain calls, the paymaster contract's `GetHash`
view, the sponsor-key store and secp256k1 signing are oracles in `PmEnv`.
Addresses are opaque `Nat` identifiers; the `.Hex()` renderings used as
database keys are absorbed into the oracles. -/

/-- The ERC-4337 user operation (`relay.UserOp`).  Modelled from the spec:
the struct's own source file is not under `src/`; fields follow spec §3 and
the handlers' uses. -/
structure GoUserOp where
  sender : Nat
  nonce : Int
  initCode : List Nat
  callData : List Nat
  callGasLimit : Int
  verificationGasLimit : Int
  preVerificationGas : Int
  maxFeePerGas : Int
  maxPriorityFeePerGas : Int
  paymasterAndData : List Nat
  signature : List Nat
deriving DecidableEq

/-- A sponsor-key row; only the (encrypted) private key is consulted by the
handlers (embeds `db.Sponsor`). -/
structure SponsorRec where
  privateKey : GoStr
deriving DecidableEq

/-- The three values unpacked from `execute`-style calldata, each `none`
when the corresponding Go type assertion fails. -/
structure CallValues where
  dest : Option Nat
  value : Option Int
  dataBytes : Option (List Nat)
deriving DecidableEq

/-- Modelled from the spec: the allow-listed selector `execute`
(constant defined in a pkg/relay source file not under `src/`; the value is
the canonical 4-byte selector `0xb61d27f6`). -/
def FuncSigSingle : List Nat := [182, 29, 39, 246]

/-- Modelled from the spec: the allow-listed selector `executeBatch`
(`0x47e1da2a`). -/
def FuncSigBatch : List Nat := [71, 225, 218, 42]

/-- Modelled from the spec: the allow-listed selector
`execTransactionFromModule` (`0x468721a7`). -/
def FuncSigSafeExecFromModule : List Nat := [70, 135, 33, 167]

deriving instance DecidableEq for Except

/-- Result of a Go function that can return a value, return an error, or
panic. -/
inductive HRes (α : Type) where
  | ok (a : α)
  | err (msg : GoStr)
  | panicked (msg : GoStr)
deriving DecidableEq

/-- Go slice expression `b[:n]`: panics when `n` exceeds the length (the
JSON-decoded byte slices here have capacity equal to length). -/
def goSliceTo (bs : List Nat) (n : Nat) : HRes (List Nat) :=
  if n ≤ bs.length then .ok (bs.take n)
  else .panicked (("runtime error: slice bounds out of range").data)

/-- Bit length of a natural number, by structural recursion on a fuel
argument (the number itself bounds the number of halvings). -/
def natBitLenAux : Nat → Nat → Nat
  | 0, _ => 0
  | fuel + 1, n => if n = 0 then 0 else natBitLenAux fuel (n / 2) + 1

/-- `big.Int.BitLen`: bit length of the absolute value. -/
def bigIntBitLen (i : Int) : Nat := natBitLenAux i.natAbs i.natAbs

/-- Big-endian 20-byte rendering of an address (`common.Address.Bytes`). -/
def bytesOfAddr (a : Nat) : List Nat :=
  (List.range 20).reverse.map (fun i => a / 256 ^ i % 256)

/-- `common.BytesToAddress`: the rightmost 20 bytes, as a `Nat`. -/
def bytesToAddress (bs : List Nat) : Nat :=
  natFromBytes (bs.drop (bs.length - 20))

/-- Normalize the secp256k1 recovery id to 27/28
(`crypto.RecoveryIDOffset = 64`; `crypto.Sign` always returns 65 bytes). -/
def normalizeV (sig : List Nat) : List Nat :=
  if sig.getD 64 0 = 0 ∨ sig.getD 64 0 = 1 then sig.set 64 (sig.getD 64 0 + 27)
  else sig

/-- Oracles for the paymaster handlers' effectful collaborators. -/
structure PmEnv where
  codeAt : Nat → Except GoStr (List Nat)
  newPaymaster : Nat → Except GoStr Unit
  getHash : GoUserOp → Int → Int → Except GoStr (List Nat)
  textHash : List Nat → List Nat
  getSponsor : Nat → Except GoStr SponsorRec
  hexToPrivateKey : GoStr → Except GoStr Nat
  signHash : List Nat → Nat → Except GoStr (List Nat)
  unpackCall : Bool → List Nat → Except GoStr CallValues
  packValidity : Int → Int → Except GoStr (List Nat)
  newNonce : Nat → Except GoStr Int
  now : Int

/-- The paymaster response (`paymasterData`); the gas limits are passed
through (their hex rendering is pure formatting and omitted). -/
structure PaymasterData where
  paymasterAndData : List Nat
  preVerificationGas : Int
  verificationGasLimit : Int
  callGasLimit : Int
deriving DecidableEq

/-- Embeds `Service.Sponsor` from `internal/paymaster/handlers.go` (after
request parsing): deployment check, nonce/initCode checks, selector
allow-list, calldata unpacking, validity window, `getHash`, key lookup and
signing. -/
def Sponsor (env : PmEnv) (pmAddr : Nat) (userop : GoUserOp) (epAddr : GoStr)
    (ptType : GoStr) : HRes PaymasterData :=
  match env.codeAt pmAddr with
  | .error e => .err e
  | .ok bytecode =>
  if bytecode.length = 0 then .err (("paymaster contract not deployed").data)
  else match env.newPaymaster pmAddr with
  | .error e => .err e
  | .ok _ =>
  if epAddr = [] then .err (("error entrypoint address is empty").data)
  -- if the nonce is not 0, then the init code should be empty
  else if userop.nonce > 0 ∧ hexOfBytes userop.initCode ≠ ['0', 'x'] then
    .err (("error init code is not empty even though nonce is not 0").data)
  else
  -- if the nonce is 0, then check that the factory exists (strictly more
  -- than 20 bytes of init code)
  let factoryCheck : HRes Unit :=
    if userop.nonce = 0 ∧ userop.initCode.length > 20 then
      match env.codeAt (bytesToAddress (userop.initCode.take 20)) with
      | .error e => .err e
      | .ok fb =>
        if fb.length = 0 then .err (("error factory contract not found").data)
        else .ok ()
    else .ok ()
  match factoryCheck with
  | .err e => .err e
  | .panicked m => .panicked m
  | .ok _ =>
  if userop.callData.length < 4 then .err (("error call data is too short").data)
  else match goSliceTo userop.callData 4 with
  | .err e => .err e
  | .panicked m => .panicked m
  | .ok funcSig =>
  if ¬ (funcSig = FuncSigSingle ∨ funcSig = FuncSigBatch ∨
      funcSig = FuncSigSafeExecFromModule) then
    .err (("error invalid function signature. supported signatures: execute, executeBatch, execTransactionFromModule").data)
  else match env.unpackCall (ptType = ("cw-safe").data) (userop.callData.drop 4) with
  | .error e => .err e
  | .ok cv =>
  match cv.dest with
  | none => .err (("error invalid destination address").data)
  | some _ =>
  match cv.value with
  | none => .err (("error invalid call value").data)
  | some _ =>
  match cv.dataBytes with
  | none => .err (("error invalid call data").data)
  | some _ =>
  let validUntil : Int := env.now + 60
  let validAfter : Int := env.now - 10
  if bigIntBitLen validUntil > 48 ∨ bigIntBitLen validAfter > 48 then
    .err (("error invalid validity period").data)
  else match env.packValidity validUntil validAfter with
  | .error e => .err e
  | .ok validity =>
  match env.getHash userop validUntil validAfter with
  | .error e => .err e
  | .ok hash =>
  let hhash := env.textHash hash
  match env.getSponsor pmAddr with
  | .error _ => .err (("error not allowed to operate this paymaster").data)
  | .ok sponsorKey =>
  match env.hexToPrivateKey sponsorKey.privateKey with
  | .error _ => .err (("error invalid private key").data)
  | .ok pk =>
  match env.signHash hhash pk with
  | .error _ => .err (("error signing hash").data)
  | .ok sig =>
  .ok { paymasterAndData := bytesOfAddr pmAddr ++ validity ++ normalizeV sig
        preVerificationGas := userop.preVerificationGas
        verificationGasLimit := userop.verificationGasLimit
        callGasLimit := userop.callGasLimit }

/-- The OO signature limit: 7 days in seconds. -/
def ooSigLimit : Int := 60 * 60 * 24 * 7

/-- The per-slot loop of `OOSponsor`: fresh random nonce (oracle indexed by
the loop counter), recomputed hash, signature; each slot starts from a copy
of the original op. -/
def oOSponsorLoop (env : PmEnv) (pmAddr : Nat) (userop : GoUserOp)
    (validity : List Nat) (validUntil validAfter : Int) (pk : Nat) :
    Nat → Nat → HRes (List GoUserOp)
  | _, 0 => .ok []
  | i, rem + 1 =>
    match env.newNonce i with
    | .error _ => .err (("error generating nonce").data)
    | .ok nonce =>
      let op := { userop with nonce := nonce }
      match env.getHash op validUntil validAfter with
      | .error _ => .err (("error generating hash").data)
      | .ok hash =>
        match env.signHash (env.textHash hash) pk with
        | .error _ => .err (("error signing hash").data)
        | .ok sig =>
          let op' := { op with
            paymasterAndData := bytesOfAddr pmAddr ++ validity ++ normalizeV sig }
          match oOSponsorLoop env pmAddr userop validity validUntil validAfter pk
              (i + 1) rem with
          | .ok rest => .ok (op' :: rest)
          | .err e => .err e
          | .panicked m => .panicked m

/-- Embeds `Service.OOSponsor` (after request parsing; `amount` already
defaulted by the parsing loop).  Note the selector check slices
`userop.CallData[:4]` without the length guard that `Sponsor` has. -/
def OOSponsor (env : PmEnv) (pmAddr : Nat) (userop : GoUserOp) (epAddr : GoStr)
    (ptType : GoStr) (amount : Int) : HRes (List GoUserOp) :=
  match env.codeAt pmAddr with
  | .error e => .err e
  | .ok bytecode =>
  if bytecode.length = 0 then .err (("error paymaster contract not deployed").data)
  else match env.newPaymaster pmAddr with
  | .error _ => .err (("error instantiating paymaster contract").data)
  | .ok _ =>
  if epAddr = [] then .err (("error entrypoint address is empty").data)
  else match goSliceTo userop.callData 4 with
  | .err e => .err e
  | .panicked m => .panicked m
  | .ok funcSig =>
  if ¬ (funcSig = FuncSigSingle ∨ funcSig = FuncSigBatch ∨
      funcSig = FuncSigSafeExecFromModule) then
    .err (("error invalid function signature. supported signatures: execute, executeBatch, execTransactionFromModule").data)
  else match env.unpackCall (ptType = ("cw-safe").data) (userop.callData.drop 4) with
  | .error e => .err e
  | .ok cv =>
  match cv.dest with
  | none => .err (("error invalid destination address").data)
  | some _ =>
  match cv.value with
  | none => .err (("error invalid call value").data)
  | some _ =>
  match cv.dataBytes with
  | none => .err (("error invalid call data").data)
  | some _ =>
  let validUntil : Int := env.now + ooSigLimit
  let validAfter : Int := env.now - 10
  if bigIntBitLen validUntil > 48 ∨ bigIntBitLen validAfter > 48 then
    .err (("error invalid validity period").data)
  else match env.packValidity validUntil validAfter with
  | .error e => .err e
  | .ok validity =>
  match env.getSponsor pmAddr with
  | .error _ => .err (("error not allowed to operate this paymaster").data)
  | .ok sponsorKey =>
  match env.hexToPrivateKey sponsorKey.privateKey with
  | .error _ => .err (("error invalid private key").data)
  | .ok pk =>
  oOSponsorLoop env pmAddr userop validity validUntil validAfter pk 0 amount.toNat

/-- A paymaster oracle environment where only addresses `1` (the
paymaster) holds code; in particular the zero factory address is
undeployed. -/
def pmEnvC5 : PmEnv :=
  { codeAt := fun a => if a = 1 then .ok [1] else .ok []
    newPaymaster := fun _ => .ok ()
    getHash := fun _ _ _ => .ok [9]
    textHash := fun h => h
    getSponsor := fun _ => .ok ⟨("key").data⟩
    hexToPrivateKey := fun _ => .ok 5
    signHash := fun _ _ => .ok (List.replicate 65 2)
    unpackCall := fun _ _ => .ok ⟨some 3, some 0, some []⟩
    packValidity := fun _ _ => .ok [7]
    newNonce := fun i => .ok (Int.ofNat i + 100)
    now := 1000 }

/-- A user op with nonce `0` and an init code of exactly 20 bytes (a bare
factory address), whose calldata is an allow-listed `execute` call. -/
def useropC5 : GoUserOp :=
  { sender := 0, nonce := 0, initCode := List.replicate 20 0
    callData := FuncSigSingle ++ [0]
    callGasLimit := 0, verificationGasLimit := 0, preVerificationGas := 0
    maxFeePerGas := 0, maxPriorityFeePerGas := 0
    paymasterAndData := [], signature := [] }

/-- The response `Sponsor` actually produces for `useropC5` (total
projection). -/
def pdC5 : PaymasterData :=
  match Sponsor pmEnvC5 1 useropC5 (("0xep").data) [] with
  | .ok pd => pd
  | _ => ⟨[], 0, 0, 0⟩

/-- A user op identical to `useropC5` but with 21 bytes of init code, so
the factory check fires. -/
def useropC5w : GoUserOp := { useropC5 with initCode := List.replicate 21 0 }

/-- A user op with empty init code and calldata shorter than 4 bytes. -/
def useropC10 : GoUserOp := { useropC5 with initCode := [], callData := [3] }

/-! ## `internal/nostr` (blossom) — upload admission

The S3 plumbing and the `pendingUploads` bookkeeping (a fire-and-forget
store of the group id keyed by the blob hash, consulted only by
`storeBlob`) are outside the claims; `rejectUpload` is embedded as the pure
admission decision.  `Tags.GetFirst([key, ""])` from the external go-nostr
library returns the first tag of length at least 2 whose label equals
`key` (the empty prefix element matches any value). -/

/-- A Nostr event as the group/blossom validators see it. -/
structure NEvent where
  pubkey : GoStr
  kind : Int
  createdAt : Int
  tags : List (List GoStr)
deriving DecidableEq

/-- go-nostr `Tags.GetFirst([]string{key, ""})`. -/
def tagsGetFirst (tags : List (List GoStr)) (key : GoStr) : Option (List GoStr) :=
  tags.find? (fun t => decide (2 ≤ t.length) && decide (t.headD [] = key))

/-- The maximum allowed upload size, 50 MiB. -/
def MaxFileSize : Nat := 50 * 1024 * 1024

/-- The group id taken from the auth event's `h` tag (empty when absent;
mirrors the inline extraction in `rejectUpload`). -/
def blossomGroupID (a : NEvent) : GoStr :=
  match tagsGetFirst a.tags (("h").data) with
  | some g => if 2 ≤ g.length then g.getD 1 [] else []
  | none => []

/-- Embeds `BlossomService.rejectUpload`: returns
`(reject?, reason, HTTP status)`.  `isMember` is the oracle for
`isGroupMember` (an event-store scan).  The successful path's
`pendingUploads.Store` side effect is dropped (see the section comment). -/
def rejectUpload (isMember : GoStr → GoStr → Except GoStr Bool)
    (auth : Option NEvent) (size : Nat) : Bool × GoStr × Nat :=
  if size > MaxFileSize then
    (true, ("file too large, max size is 50 MB").data, 413)
  else
    match auth with
    | none => (true, ("authentication required").data, 401)
    | some a =>
      match tagsGetFirst a.tags (("x").data) with
      | none => (true, ("missing file hash in auth event").data, 400)
      | some x =>
        if x.length < 2 then (true, ("missing file hash in auth event").data, 400)
        else
          let groupID := blossomGroupID a
          if groupID ≠ [] then
            match isMember a.pubkey groupID with
            | .error _ => (true, ("error checking group membership").data, 500)
            | .ok false => (true, ("not a member of the specified group").data, 403)
            | .ok true => (false, [], 0)
          else (false, [], 0)

/-- A membership oracle under which nobody is a member of anything. -/
def noMembers : GoStr → GoStr → Except GoStr Bool := fun _ _ => .ok false

/-- An upload auth event carrying an `x` tag and an `h` tag naming group
`g`. -/
def authC6 : NEvent :=
  { pubkey := ("pk").data, kind := 24242, createdAt := 0
    tags := [[("t").data, ("upload").data],
             [("x").data, ("hash").data],
             [("h").data, ("g").data]] }

/-! ## `internal/nostr` (groups) — NIP-29 enforcement

`ValidateEvent` and the per-kind validators are embedded over a
`GroupOracle` supplying `IsAdmin`, `IsMember` (admins count as members) and
`groupExists`, which in the source are event-store scans.  The validators'
rejection messages are the source's strings; `validatePutUser`'s promotion
message interpolates the first 8 pubkey characters in Go and is embedded
without the interpolation. -/

/-- Oracles for the group membership/existence scans of the event store. -/
structure GroupOracle where
  isAdmin : GoStr → GoStr → Except GoStr Bool
  isMember : GoStr → GoStr → Except GoStr Bool
  groupExists : GoStr → Except GoStr Bool

/-- NIP-29 kind 9000: put user. -/
def KindPutUser : Int := 9000

/-- NIP-29 kind 9001: remove user. -/
def KindRemoveUser : Int := 9001

/-- NIP-29 kind 9002: edit metadata. -/
def KindEditMetadata : Int := 9002

/-- NIP-29 kind 9005: delete event. -/
def KindDeleteEvent : Int := 9005

/-- NIP-29 kind 9007: create group. -/
def KindCreateGroup : Int := 9007

/-- NIP-29 kind 9008: delete group. -/
def KindDeleteGroup : Int := 9008

/-- NIP-29 kind 9021: join request. -/
def KindJoinRequest : Int := 9021

/-- NIP-29 kind 9022: leave request. -/
def KindLeaveRequest : Int := 9022

/-- The group id from the event's `h` tag, empty when absent (embeds
`getHTag`). -/
def getHTag (e : NEvent) : GoStr :=
  match tagsGetFirst e.tags (("h").data) with
  | some t => if 2 ≤ t.length then t.getD 1 [] else []
  | none => []

/-- Embeds `hasHTag`. -/
def hasHTag (e : NEvent) : Bool := getHTag e ≠ []

/-- Embeds `getPTags`: every `p` tag as `[pubkey]` or `[pubkey, role]`. -/
def getPTags (e : NEvent) : List (List GoStr) :=
  (e.tags.filter
      (fun t => decide (2 ≤ t.length) && decide (t.headD [] = ("p").data))).map
    (fun t => if 3 ≤ t.length then [t.getD 1 [], t.getD 2 []] else [t.getD 1 []])

/-- Embeds `validateCreateGroup`: needs an `h` tag and a not-yet-existing
group. -/
def validateCreateGroup (g : GroupOracle) (e : NEvent) : Bool × GoStr :=
  let groupID := getHTag e
  if groupID = [] then (true, ("missing h tag (group ID) for group creation").data)
  else
    match g.groupExists groupID with
    | .error _ => (true, ("internal error checking group").data)
    | .ok true => (true, ("group already exists").data)
    | .ok false => (false, [])

/-- The promotion loop of `validatePutUser`: a `p` tag with role `admin`
requires the target to already be a member. -/
def checkPromotions (g : GroupOracle) (groupID : GoStr) :
    List (List GoStr) → Bool × GoStr
  | [] => (false, [])
  | pTag :: rest =>
    let role := if 1 < pTag.length then pTag.getD 1 [] else ("member").data
    if role = ("admin").data then
      match g.isMember (pTag.headD []) groupID with
      | .error _ => (true, ("internal error checking membership").data)
      | .ok false => (true, ("user must be a member before being promoted to admin").data)
      | .ok true => checkPromotions g groupID rest
    else checkPromotions g groupID rest

/-- Embeds `validatePutUser`: author must be admin, at least one `p` tag,
promotions to admin only for existing members. -/
def validatePutUser (g : GroupOracle) (e : NEvent) : Bool × GoStr :=
  let groupID := getHTag e
  if groupID = [] then (true, ("missing h tag (group ID)").data)
  else
    match g.isAdmin e.pubkey groupID with
    | .error _ => (true, ("internal error checking permissions").data)
    | .ok false => (true, ("only admins can add users or change roles").data)
    | .ok true =>
      let pTags := getPTags e
      if pTags.length = 0 then (true, ("missing p tag (target user pubkey)").data)
      else checkPromotions g groupID pTags

/-- Embeds `validateRemoveUser`: author must be admin, at least one `p`
tag. -/
def validateRemoveUser (g : GroupOracle) (e : NEvent) : Bool × GoStr :=
  let groupID := getHTag e
  if groupID = [] then (true, ("missing h tag (group ID)").data)
  else
    match g.isAdmin e.pubkey groupID with
    | .error _ => (true, ("internal error checking permissions").data)
    | .ok false => (true, ("only admins can remove users").data)
    | .ok true =>
      if (getPTags e).length = 0 then
        (true, ("missing p tag (target user pubkey)").data)
      else (false, [])

/-- Embeds `validateEditMetadata`: author must be admin. -/
def validateEditMetadata (g : GroupOracle) (e : NEvent) : Bool × GoStr :=
  let groupID := getHTag e
  if groupID = [] then (true, ("missing h tag (group ID)").data)
  else
    match g.isAdmin e.pubkey groupID with
    | .error _ => (true, ("internal error checking permissions").data)
    | .ok false => (true, ("only admins can edit group metadata").data)
    | .ok true => (false, [])

/-- Embeds `validateDeleteEvent`: author must be admin. -/
def validateDeleteEvent (g : GroupOracle) (e : NEvent) : Bool × GoStr :=
  let groupID := getHTag e
  if groupID = [] then (true, ("missing h tag (group ID)").data)
  else
    match g.isAdmin e.pubkey groupID with
    | .error _ => (true, ("internal error checking permissions").data)
    | .ok false => (true, ("only admins can delete events").data)
    | .ok true => (false, [])

/-- Embeds `validateDeleteGroup`: author must be admin. -/
def validateDeleteGroup (g : GroupOracle) (e : NEvent) : Bool × GoStr :=
  let groupID := getHTag e
  if groupID = [] then (true, ("missing h tag (group ID)").data)
  else
    match g.isAdmin e.pubkey groupID with
    | .error _ => (true, ("internal error checking permissions").data)
    | .ok false => (true, ("only admins can delete the group").data)
    | .ok true => (false, [])

/-- Embeds `validateJoinRequest`: the group must exist; the request is
stored without granting membership. -/
def validateJoinRequest (g : GroupOracle) (e : NEvent) : Bool × GoStr :=
  let groupID := getHTag e
  if groupID = [] then (true, ("missing h tag (group ID)").data)
  else
    match g.groupExists groupID with
    | .error _ => (true, ("internal error checking group").data)
    | .ok false => (true, ("group does not exist").data)
    | .ok true => (false, [])

/-- Embeds `validateLeaveRequest`: the author must be a member. -/
def validateLeaveRequest (g : GroupOracle) (e : NEvent) : Bool × GoStr :=
  let groupID := getHTag e
  if groupID = [] then (true, ("missing h tag (group ID)").data)
  else
    match g.isMember e.pubkey groupID with
    | .error _ => (true, ("internal error checking membership").data)
    | .ok false => (true, ("you are not a member of this group").data)
    | .ok true => (false, [])

/-- Embeds `validateGroupContent`: content without an `h` tag passes; with
one, the author must be a member (admins count as members inside the
oracle, as in `IsMember`). -/
def validateGroupContent (g : GroupOracle) (e : NEvent) : Bool × GoStr :=
  let groupID := getHTag e
  if groupID = [] then (false, [])
  else
    match g.isMember e.pubkey groupID with
    | .error _ => (true, ("internal error checking membership").data)
    | .ok false => (true, ("only group members can post content").data)
    | .ok true => (false, [])

/-- Embeds `GroupsService.ValidateEvent`: dispatch on the event kind;
kinds 9–12 and any other event carrying an `h` tag are group content. -/
def ValidateEvent (g : GroupOracle) (e : NEvent) : Bool × GoStr :=
  if e.kind = KindCreateGroup then validateCreateGroup g e
  else if e.kind = KindPutUser then validatePutUser g e
  else if e.kind = KindRemoveUser then validateRemoveUser g e
  else if e.kind = KindEditMetadata then validateEditMetadata g e
  else if e.kind = KindDeleteEvent then validateDeleteEvent g e
  else if e.kind = KindDeleteGroup then validateDeleteGroup g e
  else if e.kind = KindJoinRequest then validateJoinRequest g e
  else if e.kind = KindLeaveRequest then validateLeaveRequest g e
  else if e.kind = 9 ∨ e.kind = 10 ∨ e.kind = 11 ∨ e.kind = 12 then
    validateGroupContent g e
  else if hasHTag e then validateGroupContent g e
  else (false, [])

/-- An oracle for an existing group `g` with no members and no admins. -/
def oracleC7 : GroupOracle :=
  { isAdmin := fun _ _ => .ok false
    isMember := fun _ _ => .ok false
    groupExists := fun _ => .ok true }

/-- A kind-9021 join request for group `g` from a non-member. -/
def evC7 : NEvent :=
  { pubkey := ("alice").data, kind := 9021, createdAt := 0
    tags := [[("h").data, ("g").data]] }

/-- A kind-9 group chat message for group `g` from the same non-member. -/
def evC7w : NEvent := { evC7 with kind := 9 }

/-! ## `internal/ethrequest/ethrequest.go` — NewTx

`BaseFee`, `MaxPriorityFeePerGas` and `EstimateGasLimit` are chain oracles.
Fees are `*big.Int` (unbounded `Nat`/`Int`); the gas limit and buffer are
Go `uint64`, so the products and sums the source computes on them are taken
`% 2 ^ 64`.  Besides the `DynamicFeeTx` fields the output records the
function's local intermediates (`tip` after the floor, `maxFeePerGas`,
`maxPriorityFeePerGas`, `gasLimit`, `gasBuffer`) as ghost fields so the
statements can speak about them. -/

/-- Chain oracles used by `NewTx`. -/
structure EthEnv where
  baseFee : Except GoStr Nat
  maxPriorityFeePerGas : Except GoStr Nat
  estimateGas : Except GoStr Nat

/-- `2^64`, the modulus of Go `uint64` arithmetic. -/
def U64 : Nat := 2 ^ 64

/-- The constructed dynamic-fee transaction plus the ghost intermediates
of `NewTx` (see the section comment). -/
structure NewTxOut where
  nonce : Nat
  gasFeeCap : Int
  gasTipCap : Int
  gas : Nat
  tipAfterFloor : Nat
  maxFeePerGas : Nat
  maxPriorityFee : Nat
  gasLimit : Nat
  gasBuffer : Nat
deriving DecidableEq

/-- Embeds `EthService.NewTx`: adaptive fee policy on the observed base
fee, gas-limit buffering, and the `extraGas` replacement bump.  (`To`,
`Value = 0` and `Data` are carried through unchanged and omitted.) -/
def NewTx (env : EthEnv) (nonce : Nat) (extraGas : Int) :
    Except GoStr NewTxOut :=
  match env.baseFee with
  | .error e => .error ((("error getting base fee: ").data) ++ e)
  | .ok baseFee =>
  match env.maxPriorityFeePerGas with
  | .error e => .error ((("error getting max priority fee: ").data) ++ e)
  | .ok tip0 =>
  -- low-cost network threshold: 0.01 Gwei
  let lowCost := baseFee < 10000000
  let minPriorityFee : Nat := if lowCost then 1000000 else 1000000000
  let baseFeeMultiplier : Nat := if lowCost then 1 else 2
  let gasBufferPercent : Nat := if lowCost then 10 else 50
  let tip := if tip0 < minPriorityFee then minPriorityFee else tip0
  let maxPriorityFeePerGas := if lowCost then tip else tip + tip / 10
  let maxFeePerGas := maxPriorityFeePerGas + baseFee * baseFeeMultiplier
  match env.estimateGas with
  | .error e => .error ((("gas estimation failed: ").data) ++ e)
  | .ok gasLimit =>
  let gasBuffer : Nat :=
    if lowCost then
      -- 50% buffer, floored at 20k, floored again at 5%
      let gb := gasLimit / 2
      if gb < 20000 then
        if 20000 < gasLimit / 20 then gasLimit / 20 else 20000
      else gb
    else gasLimit * gasBufferPercent % U64 / 100
  let gasFeeCap : Int :=
    if extraGas > 0 then (maxFeePerGas : Int) + maxFeePerGas * extraGas
    else (maxFeePerGas : Int) + maxFeePerGas / 10
  let gasTipCap : Int :=
    if extraGas > 0 then
      (maxPriorityFeePerGas : Int) + maxPriorityFeePerGas * extraGas
    else (maxPriorityFeePerGas : Int) + maxPriorityFeePerGas / 10
  .ok { nonce := nonce, gasFeeCap := gasFeeCap, gasTipCap := gasTipCap
        gas := (gasLimit + gasBuffer) % U64
        tipAfterFloor := tip, maxFeePerGas := maxFeePerGas
        maxPriorityFee := maxPriorityFeePerGas
        gasLimit := gasLimit, gasBuffer := gasBuffer }

/-- A high-cost-network environment (base fee exactly 0.01 Gwei) whose gas
estimate is `2^63`, where the `uint64` product `gasLimit * 50` wraps to
`0`. -/
def ethEnvC8 : EthEnv :=
  { baseFee := .ok 10000000
    maxPriorityFeePerGas := .ok 0
    estimateGas := .ok (2 ^ 63) }

/-- The transaction `NewTx` actually builds in `ethEnvC8` (total
projection). -/
def newTxOutC8 : NewTxOut :=
  match NewTx ethEnvC8 0 0 with
  | .ok o => o
  | .error _ => ⟨0, 0, 0, 0, 0, 0, 0, 0, 0⟩

/-- A low-cost-network environment with a small gas estimate. -/
def ethEnvC8w : EthEnv :=
  { baseFee := .ok 5000000
    maxPriorityFeePerGas := .ok 0
    estimateGas := .ok 30000 }

/-- The transaction `NewTx` builds in `ethEnvC8w` with a replacement bump
of 2 (total projection). -/
def newTxOutC8w : NewTxOut :=
  match NewTx ethEnvC8w 7 2 with
  | .ok o => o
  | .error _ => ⟨0, 0, 0, 0, 0, 0, 0, 0, 0⟩

/-! ## `internal/queue/userop.go` — the bundler

`UserOpService.Process` is embedded with oracles in `QueueEnv` for the
sponsor-key store, key derivation, chain nonce, calldata packing,
transaction construction/signing and submission.  Addresses, message ids,
transaction blobs and hashes are opaque `Nat` identifiers; the `.Hex()`
renderings are absorbed into the oracles.  `GetSponsor` is indexed by a
global call counter (one per call the source makes) because the store is
an external database whose calls can fail transiently.  A transaction is
"submitted" when `SendTransaction` is called; the ghost `Submission`
record carries the signed tx and a snapshot of `inProgress[sponsor]` at
that moment.  The async `WaitForTx` waiter goroutine is not part of the
synchronous semantics of `Process`; its effect on the shared map is
`waiterRemove`, which the claims about unperturbed runs simply never
apply.  A non-RPC error from `SendTransaction` drives the source into
`e.Error()` on a nil interface, a panic, modelled by `GoRes.panicked`.
`comm.Filter` and `comm.HexToPrivateKey` live in a pkg/common source file
not under `src/`; `Filter` is modelled from the spec ("remove the tx-hash
from `inProgress`") as list filtering, `HexToPrivateKey` is an oracle. -/

/-- A queue envelope for one user operation (embeds `relay.UserOpMessage`).
The Go `Data any` field is modelled by what `Process` extracts from it:
`none` when it is not a `*json.RawMessage` (or nil), `some none` when the
JSON does not unmarshal to an object, and `some (some keys)` for the key
set of the unmarshalled object.  `ExtraData` is an opaque blob id. -/
structure UserOpMessage where
  paymaster : Nat
  entryPoint : Nat
  chainId : Int
  userOp : GoUserOp
  dataKeys : Option (Option (List GoStr))
  extraData : Option Nat
  bumpGas : Int
deriving DecidableEq

/-- The `Message.Message any` payload: a `UserOpMessage` or anything else
(the failed type assertion case). -/
inductive MsgPayload where
  | userOp (txm : UserOpMessage)
  | other (tag : Nat)
deriving DecidableEq

/-- A queue message (embeds `relay.Message`; the response channel is
dropped — responses are recorded in the ghost `responded` list). -/
structure Message where
  id : Nat
  retryCount : Nat
  payload : MsgPayload
deriving DecidableEq

/-- A dynamic-fee transaction as the bundler sees it: the nonce it was
built with plus an opaque remainder (`EthService.NewTx` stores the nonce
verbatim in the `DynamicFeeTx`, see `NewTx` above). -/
structure QTx where
  nonce : Nat
  blob : Nat
deriving DecidableEq

/-- A signed transaction: `types.SignTx` wraps the same payload, so the
nonce is carried through; `hash` is the signed tx hash. -/
structure SignedTx where
  tx : QTx
  hash : Nat
deriving DecidableEq

/-- Outcome of `SendTransaction`: success, an error implementing
`rpc.Error`, or a non-RPC error (whose handling panics, see the section
comment). -/
inductive SendOutcome where
  | ok
  | rpcErr (code : Int) (msg : GoStr)
  | nonRpcErr (msg : GoStr)

/-- The speculative log record the bundler builds for a matching op
(embeds the `nostreth.Log` fields that feed `GenerateUniqueHash`). -/
structure LogRec where
  txHash : Nat
  chainId : Int
  nonce : Int
  sender : Nat
  toAddr : Nat
  dataKeys : List GoStr
deriving DecidableEq

/-- Oracles for the bundler's effectful collaborators. -/
structure QueueEnv where
  chainId : Int
  getSponsor : Nat → Nat → Except GoStr SponsorRec
  hexToPrivateKey : GoStr → Except GoStr Nat
  pubkeyToAddress : Nat → Nat
  nonceAt : Nat → Except GoStr Nat
  entryPointAbi : Except GoStr Unit
  packHandleOps : List GoUserOp → Nat → Except GoStr (List Nat)
  newTxBlob : Nat → Nat → Nat → List Nat → Int → Except GoStr Nat
  signTx : QTx → Int → Nat → Except GoStr Nat
  getEvents : Except GoStr (List Event)
  parseDest : List Nat → Except GoStr Nat
  genLogHash : LogRec → Nat
  sendTransaction : SignedTx → SendOutcome

/-- Result of a Go computation that can also panic. -/
inductive GoRes (α : Type) where
  | ok (a : α)
  | panicked (msg : GoStr)

/-- One sponsor group: the derived sponsor address with the messages and
their `UserOpMessage` payloads, in arrival order. -/
abbrev GroupEntry := Nat × List Message × List UserOpMessage

/-- Append a message to its sponsor's group (the two keyed map appends of
the grouping loop; association-list order is first-insertion order, an
arbitrary but fixed refinement of Go's unspecified map iteration order —
no settled claim depends on the order across sponsors). -/
def addToGroup : List GroupEntry → Nat → Message → UserOpMessage → List GroupEntry
  | [], a, m, t => [(a, [m], [t])]
  | (b, ms, ts) :: rest, a, m, t =>
    if b = a then (b, ms ++ [m], ts ++ [t]) :: rest
    else (b, ms, ts) :: addToGroup rest a m t

/-- State of the grouping loop (the first `for` of `Process`). -/
structure Grouped where
  invalid : List Message
  errors : List GoStr
  groups : List GroupEntry
  counter : Nat

/-- The grouping loop: type-assert each message, fetch the sponsor key,
derive the signer address, and group; failures reject the single message
with one error. -/
def groupPhase (env : QueueEnv) : List Message → Grouped → Grouped
  | [], acc => acc
  | m :: rest, acc =>
    match m.payload with
    | .other _ =>
      groupPhase env rest
        { acc with
          invalid := acc.invalid ++ [m]
          errors := acc.errors ++ [("invalid tx msgs...").data] }
    | .userOp txm =>
      match env.getSponsor acc.counter txm.paymaster with
      | .error e =>
        groupPhase env rest
          { acc with
            invalid := acc.invalid ++ [m]
            errors := acc.errors ++ [e]
            counter := acc.counter + 1 }
      | .ok sponsorKey =>
        match env.hexToPrivateKey sponsorKey.privateKey with
        | .error e =>
          groupPhase env rest
            { acc with
              invalid := acc.invalid ++ [m]
              errors := acc.errors ++ [e]
              counter := acc.counter + 1 }
        | .ok pk =>
          groupPhase env rest
            { acc with
              groups := addToGroup acc.groups (env.pubkeyToAddress pk) m txm
              counter := acc.counter + 1 }

/-- The speculative-log loop over a group's ops: skip ops without parseable
data or whose data matches no registered event shape; for matching ops
with an extra-data blob, record the `DataDB.UpsertData` write keyed by the
generated log hash.  (The `insertedLogs` map the source also fills is never
read afterwards and is omitted.) -/
def logsLoop (env : QueueEnv) (events : List Event) (txHash : Nat) :
    List UserOpMessage → List (Nat × Nat)
  | [] => []
  | txm :: rest =>
    let tail := logsLoop env events txHash rest
    match txm.dataKeys with
    | none => tail
    | some none => tail
    | some (some keys) =>
      if events.any (fun ev => IsValidData ev keys) then
        match env.parseDest txm.userOp.callData with
        | .error _ => tail
        | .ok dest =>
          let h := env.genLogHash
            { txHash := txHash, chainId := env.chainId
              nonce := txm.userOp.nonce, sender := txm.userOp.sender
              toAddr := dest, dataKeys := keys }
          match txm.extraData with
          | none => tail
          | some xd => (h, xd) :: tail
      else tail

/-- A ghost record of one `SendTransaction` call: the sponsor, the signed
transaction, and the `inProgress[sponsor]` list at the moment of the
call. -/
structure Submission where
  sponsor : Nat
  stx : SignedTx
  snap : List Nat
deriving DecidableEq

/-- Pointwise update of the `inProgress` map. -/
def setInProg (f : Nat → List Nat) (a : Nat) (v : List Nat) : Nat → List Nat :=
  fun b => if b = a then v else f b

/-- The `-32010` re-enqueue loop: each message that re-asserts as a
`UserOpMessage` is re-wrapped with `BumpGas + 1` (same id, retry count and
response); a failed re-assertion is skipped — though the error loop still
runs per message. -/
def bumpInvalid (msgs : List Message) : List Message :=
  msgs.filterMap (fun m =>
    match m.payload with
    | .userOp txm =>
      some { m with payload := .userOp { txm with bumpGas := txm.bumpGas + 1 } }
    | .other _ => none)

/-- The effects of processing one sponsor group, to be folded into the
overall output. -/
structure GroupDelta where
  invalidAdd : List Message
  errorsAdd : List GoStr
  inProgress : Nat → List Nat
  submittedAdd : List Submission
  writesAdd : List (Nat × Nat)
  respondedAdd : List (Nat × Nat)

/-- Embeds the per-sponsor body of `Process` (the second `for` of
`UserOpService.Process`): key lookup (note the nested double `for range
msgs` error loop on this path, which appends `len(msgs)^2` errors),
nonce derivation from `NonceAt` plus `len(inProgress[sponsor])`, calldata
packing, transaction construction and signing, the `inProgress` append
*before* submission, the speculative-log loop, and the `SendTransaction`
reaction ladder. -/
def processGroup (env : QueueEnv) (cnt : Nat) (inProg : Nat → List Nat)
    (a : Nat) (msgs : List Message) (txms : List UserOpMessage) :
    GoRes GroupDelta :=
  match txms with
  | [] =>
    -- unreachable: groups are created non-empty by `addToGroup`
    .ok ⟨[], [], inProg, [], [], []⟩
  | sampleTxm :: _ =>
    match env.getSponsor cnt sampleTxm.paymaster with
    | .error e =>
      .ok ⟨msgs, List.replicate (msgs.length * msgs.length) e, inProg, [], [], []⟩
    | .ok sponsorKey =>
    match env.hexToPrivateKey sponsorKey.privateKey with
    | .error e => .ok ⟨msgs, List.replicate msgs.length e, inProg, [], [], []⟩
    | .ok pk =>
    match env.nonceAt a with
    | .error e => .ok ⟨msgs, List.replicate msgs.length e, inProg, [], [], []⟩
    | .ok nonce0 =>
    let nonce := nonce0 + (inProg a).length
    match env.entryPointAbi with
    | .error e => .ok ⟨msgs, List.replicate msgs.length e, inProg, [], [], []⟩
    | .ok _ =>
    match env.packHandleOps (txms.map (fun t => t.userOp)) sampleTxm.entryPoint with
    | .error e => .ok ⟨msgs, List.replicate msgs.length e, inProg, [], [], []⟩
    | .ok callData =>
    match env.newTxBlob nonce a sampleTxm.entryPoint callData sampleTxm.bumpGas with
    | .error e => .ok ⟨msgs, List.replicate msgs.length e, inProg, [], [], []⟩
    | .ok blob =>
    let tx : QTx := ⟨nonce, blob⟩
    match env.signTx tx sampleTxm.chainId pk with
    | .error e => .ok ⟨msgs, List.replicate msgs.length e, inProg, [], [], []⟩
    | .ok signedTxHash =>
    let inProg1 := setInProg inProg a (inProg a ++ [signedTxHash])
    match env.getEvents with
    | .error e =>
      -- the just-appended hash is not removed on this path
      .ok ⟨msgs, List.replicate msgs.length e, inProg1, [], [], []⟩
    | .ok events =>
    let writes := logsLoop env events signedTxHash txms
    let stx : SignedTx := ⟨tx, signedTxHash⟩
    let sub : Submission := ⟨a, stx, inProg a ++ [signedTxHash]⟩
    match env.sendTransaction stx with
    | .ok =>
      .ok ⟨[], [], inProg1, [sub], writes,
        msgs.map (fun m => (m.id, signedTxHash))⟩
    | .rpcErr code msg =>
      if code = -32010 then
        .ok ⟨bumpInvalid msgs, List.replicate msgs.length msg,
          setInProg inProg1 a ((inProg1 a).filter (fun s => s ≠ signedTxHash)),
          [sub], writes, []⟩
      else if code ≠ -32000 then
        .ok ⟨msgs, List.replicate msgs.length msg,
          setInProg inProg1 a ((inProg1 a).filter (fun s => s ≠ signedTxHash)),
          [sub], writes, []⟩
      else if ¬ goContainsSub (("insufficient funds").data) msg then
        .ok ⟨msgs, List.replicate msgs.length msg,
          setInProg inProg1 a ((inProg1 a).filter (fun s => s ≠ signedTxHash)),
          [sub], writes, []⟩
      else
        .ok ⟨msgs, List.replicate msgs.length msg,
          setInProg inProg1 a ((inProg1 a).filter (fun s => s ≠ signedTxHash)),
          [sub], writes, []⟩
    | .nonRpcErr _ =>
      .panicked (("runtime error: invalid memory address or nil pointer dereference").data)

/-- The effect of the async `WaitForTx` waiter: remove the tx hash from
`inProgress[sponsor]` under the mutex. -/
def waiterRemove (inProg : Nat → List Nat) (a : Nat) (h : Nat) : Nat → List Nat :=
  setInProg inProg a ((inProg a).filter (fun s => s ≠ h))

/-- The output of one `Process` call, with the ghost `submitted`,
`dataWrites` and `responded` logs. -/
structure ProcOut where
  invalid : List Message
  errors : List GoStr
  inProgress : Nat → List Nat
  submitted : List Submission
  dataWrites : List (Nat × Nat)
  responded : List (Nat × Nat)

/-- Fold `processGroup` over the sponsor groups, threading the call counter
and the `inProgress` map. -/
def procGroups (env : QueueEnv) :
    Nat → (Nat → List Nat) → ProcOut → List GroupEntry → GoRes ProcOut
  | _, inProg, acc, [] => .ok { acc with inProgress := inProg }
  | cnt, inProg, acc, g :: rest =>
    match processGroup env cnt inProg g.1 g.2.1 g.2.2 with
    | .panicked m => .panicked m
    | .ok d =>
      procGroups env (cnt + 1) d.inProgress
        { acc with
          invalid := acc.invalid ++ d.invalidAdd
          errors := acc.errors ++ d.errorsAdd
          submitted := acc.submitted ++ d.submittedAdd
          dataWrites := acc.dataWrites ++ d.writesAdd
          responded := acc.responded ++ d.respondedAdd } rest

/-- Embeds `UserOpService.Process`: group by sponsor, then process each
group. -/
def Process (env : QueueEnv) (inProg0 : Nat → List Nat)
    (messages : List Message) : GoRes ProcOut :=
  let g := groupPhase env messages ⟨[], [], [], 0⟩
  procGroups env g.counter inProg0 ⟨g.invalid, g.errors, inProg0, [], [], []⟩
    g.groups

/-- Consecutive `Process` calls over the same service state: each call
starts from the previous call's `inProgress` map (no waiter interleaved). -/
def processRun (env : QueueEnv) :
    (Nat → List Nat) → List (List Message) → GoRes (List ProcOut)
  | _, [] => .ok []
  | st, b :: bs =>
    match Process env st b with
    | .panicked m => .panicked m
    | .ok out =>
      match processRun env out.inProgress bs with
      | .panicked m => .panicked m
      | .ok outs => .ok (out :: outs)

/-- The submissions a `Process` call made for sponsor `a`. -/
def subsFor (a : Nat) (l : List Submission) : List Submission :=
  l.filter (fun s => s.sponsor = a)

/-- A bundler environment where every collaborator succeeds: the on-chain
nonce of any sponsor is 5, the sponsor key resolves to address 7, signing
returns `1000 + nonce` (a distinct hash per nonce), and `SendTransaction`
accepts. -/
def qEnvC1 : QueueEnv :=
  { chainId := 100
    getSponsor := fun _ _ => .ok ⟨("0xkey").data⟩
    hexToPrivateKey := fun _ => .ok 5
    pubkeyToAddress := fun _ => 7
    nonceAt := fun _ => .ok 5
    entryPointAbi := .ok ()
    packHandleOps := fun _ _ => .ok [1]
    newTxBlob := fun _ _ _ _ _ => .ok 0
    signTx := fun tx _ _ => .ok (1000 + tx.nonce)
    getEvents := .ok []
    parseDest := fun _ => .ok 0
    genLogHash := fun _ => 0
    sendTransaction := fun _ => .ok }

/-- A user-op queue message payload aimed at paymaster 3 / entry point 4. -/
def txmC1 : UserOpMessage :=
  { paymaster := 3, entryPoint := 4, chainId := 100, userOp := useropC5
    dataKeys := none, extraData := none, bumpGas := 0 }

/-- A queue message carrying `txmC1`. -/
def msgC1 : Message := ⟨11, 0, .userOp txmC1⟩

/-- Two consecutive `Process` calls, one message each. -/
def batchesC1 : List (List Message) := [[msgC1], [msgC1]]

/-- The per-call outputs of the run (total projection). -/
def outsC1 : List ProcOut :=
  match processRun qEnvC1 (fun _ => []) batchesC1 with
  | .ok outs => outs
  | .panicked _ => []

/-- The second call of the run (total projection). -/
def outC1b : ProcOut := outsC1.getD 1 ⟨[], [], fun _ => [], [], [], []⟩

/-- The single submission the second call makes for sponsor 7. -/
def subC1 : Submission := (subsFor 7 outC1b.submitted).headD ⟨0, ⟨⟨0, 0⟩, 0⟩, []⟩

/-- `qEnvC1` with a sponsor-key service that fails from its third call on:
the two per-message lookups of the grouping pass succeed, then the
per-group re-lookup fails (a transient backend error). -/
def qEnvC9 : QueueEnv :=
  { qEnvC1 with
    getSponsor := fun i _ =>
      if i < 2 then .ok ⟨("0xkey").data⟩
      else .error (("connection reset").data) }

/-- Two distinct queue messages for the same paymaster. -/
def msgC9a : Message := ⟨21, 0, .userOp txmC1⟩

/-- Second message of the pair. -/
def msgC9b : Message := ⟨22, 0, .userOp txmC1⟩

/-- `Process` on the two-message batch under `qEnvC9` (total projection). -/
def outC9 : ProcOut :=
  match Process qEnvC9 (fun _ => []) [msgC9a, msgC9b] with
  | .ok o => o
  | .panicked _ => ⟨[], [], fun _ => [], [], [], []⟩

/-! ## Theorems -/

/-- C3 counterexample: for the event `E(uint256 a, uint256 a)` (duplicate
argument name `a`) and the key set `{topic, a, b}`, `IsValidData` returns
`true` although the key set is not `{"topic"} ∪ argNames` — the extra key
`b` is admitted, refuting the claimed iff in the duplicate-name case. -/
theorem C3_counterexample :
    IsValidData evC3 keysC3 = true ∧
      ¬ (∀ k, k ∈ keysC3 ↔ (k = ("topic").data ∨ k ∈ (ParseEventSignature evC3).2.1)) := by
  refine ⟨by decide, fun h => ?_⟩
  have hb := (h (("b").data)).mp (by decide)
  exact absurd hb (by decide)

/-- Characterization of `IsValidData` as a conjunction of the length check
and the two membership checks. -/
theorem isValidData_iff (e : Event) (ks : List GoStr) :
    IsValidData e ks = true ↔
      ks.length = (ParseEventSignature e).2.1.length + 1 ∧
        ("topic").data ∈ ks ∧ ∀ n ∈ (ParseEventSignature e).2.1, n ∈ ks := by
  simp only [IsValidData]
  by_cases h1 : ks.length = (ParseEventSignature e).2.1.length + 1
  · rw [if_neg (fun h => h h1)]
    by_cases h2 : ("topic").data ∈ ks
    · rw [if_neg (by simpa using h2)]
      simp [h1, h2, List.all_eq_true]
    · rw [if_pos (by simpa using h2)]
      simp [h2]
  · rw [if_pos h1]
    simp [h1]

/-- C3 (amended): `IsValidData` returns true iff the key set of the data
equals `{"topic"} ∪ argNames` — provided the argument names are pairwise
distinct and none of them is the literal `topic`; with duplicate argument
names the length check undercounts and an extra key can be admitted
(`C3_counterexample`). -/
theorem C3_amended (e : Event) (dataKeys : List GoStr)
    (hnd : dataKeys.Nodup)
    (hand : (ParseEventSignature e).2.1.Nodup)
    (hat : ("topic").data ∉ (ParseEventSignature e).2.1) :
    IsValidData e dataKeys = true ↔
      dataKeys.toFinset =
        insert (("topic").data) (ParseEventSignature e).2.1.toFinset := by
  classical
  have hcard_ins :
      (insert (("topic").data) (ParseEventSignature e).2.1.toFinset).card =
        (ParseEventSignature e).2.1.length + 1 := by
    rw [Finset.card_insert_of_not_mem (by simpa using hat),
      List.toFinset_card_of_nodup hand]
  rw [isValidData_iff]
  constructor
  · rintro ⟨hlen, htop, hall⟩
    have hsub : insert (("topic").data) (ParseEventSignature e).2.1.toFinset ⊆
        dataKeys.toFinset := by
      intro k hk
      rcases Finset.mem_insert.mp hk with hk | hk
      · exact List.mem_toFinset.mpr (hk ▸ htop)
      · exact List.mem_toFinset.mpr (hall _ (List.mem_toFinset.mp hk))
    have hcards : dataKeys.toFinset.card ≤
        (insert (("topic").data) (ParseEventSignature e).2.1.toFinset).card := by
      rw [hcard_ins, List.toFinset_card_of_nodup hnd, hlen]
    exact (Finset.eq_of_subset_of_card_le hsub hcards).symm
  · intro heq
    refine ⟨?_, ?_, ?_⟩
    · have := congrArg Finset.card heq
      rwa [List.toFinset_card_of_nodup hnd, hcard_ins] at this
    · have : ("topic").data ∈ dataKeys.toFinset := by
        rw [heq]; exact Finset.mem_insert_self _ _
      exact List.mem_toFinset.mp this
    · intro n hn
      have : n ∈ dataKeys.toFinset := by
        rw [heq]
        exact Finset.mem_insert_of_mem (List.mem_toFinset.mpr hn)
      exact List.mem_toFinset.mp this

/-- C3 witness: the amended equivalence applied to the Transfer event and
the key set of a decoded Transfer bundle. -/
theorem C3_witness : IsValidData evTransfer keysTransfer = true :=
  (C3_amended evTransfer keysTransfer (by decide) (by decide) (by decide)).mpr
    (by decide)

/-- Consuming a literal prefix succeeds exactly on that prefix. -/
theorem dropLit_append (p r : GoStr) : dropLit p (p ++ r) = some r := by
  induction p with
  | nil => rfl
  | cons c cs ih => simp [dropLit, ih]

/-- Scanning to the next quote returns the quote-free prefix. -/
theorem scanQuote_append (xs r : GoStr) (h : '"' ∉ xs) :
    scanQuote (xs ++ '"' :: r) = some (xs, r) := by
  induction xs with
  | nil => simp [scanQuote]
  | cons c cs ih =>
    have hc : ¬ c = '"' := fun e => h (by simp [e])
    have ih' := ih (fun hm => h (List.mem_cons_of_mem _ hm))
    simp [scanQuote, if_neg hc, ih']

/-- The literal `true` never starts the literal `false`. -/
theorem dropLit_true_false (r : GoStr) :
    dropLit litTrue (litFalse ++ r) = none := rfl

/-- Consuming the closing brace of an input object. -/
theorem dropLit_brace (r : GoStr) : dropLit ['\x7d'] ('\x7d' :: r) = some r := rfl

/-- The closing `]}]` ends the input list. -/
theorem parseInputsTail_end (rec : GoStr → Option (List (GoStr × ArgType)))
    (entry : GoStr × ArgType) :
    parseInputsTail rec entry litEnd = some [entry] := rfl

/-- A comma continues the input list. -/
theorem parseInputsTail_cons (rec : GoStr → Option (List (GoStr × ArgType)))
    (entry : GoStr × ArgType) (r : GoStr) :
    parseInputsTail rec entry (',' :: r) = (rec r).map (fun l => entry :: l) := by
  simp [parseInputsTail]

/-- Both slices built by the argument loop always have the same length. -/
theorem parseArgsAux_lengths (l : List GoStr) :
    ∀ i, (parseArgsAux i l).1.length = (parseArgsAux i l).2.length := by
  induction l with
  | nil => intro i; rfl
  | cons a rest ih =>
    intro i
    simp only [parseArgsAux]
    cases parseArg i a with
    | none => exact ih (i + 1)
    | some p => simp [ih (i + 1)]

/-- `ParseEventSignature` returns as many argument names as argument
types. -/
theorem ParseEventSignature_lengths (e : Event) :
    (ParseEventSignature e).2.1.length = (ParseEventSignature e).2.2.length := by
  unfold ParseEventSignature
  split
  · rfl
  · split
    · rfl
    · dsimp only
      split
      · rfl
      · simp [parseArgsAux_lengths]

/-- Lockstep zipping recovers the first components. -/
theorem zipArgs_map_fst (ns : List GoStr) (ts : List ArgType)
    (h : ns.length = ts.length) : (zipArgs ns ts).map Prod.fst = ns := by
  induction ns generalizing ts with
  | nil => cases ts with
    | nil => rfl
    | cons t ts => simp at h
  | cons n ns ih =>
    cases ts with
    | nil => simp at h
    | cons t ts => simp [zipArgs, ih ts (by simpa using h)]

/-- Lockstep zipping recovers the second components. -/
theorem zipArgs_map_snd (ns : List GoStr) (ts : List ArgType)
    (h : ns.length = ts.length) : (zipArgs ns ts).map Prod.snd = ts := by
  induction ns generalizing ts with
  | nil => cases ts with
    | nil => rfl
    | cons t ts => simp at h
  | cons n ns ih =>
    cases ts with
    | nil => simp at h
    | cons t ts => simp [zipArgs, ih ts (by simpa using h)]

/-- Members of the lockstep zip come from the two input lists. -/
theorem zipArgs_mem (ns : List GoStr) (ts : List ArgType) :
    ∀ p ∈ zipArgs ns ts, p.1 ∈ ns ∧ p.2 ∈ ts := by
  induction ns generalizing ts with
  | nil => intro p hp; cases ts <;> simp [zipArgs] at hp
  | cons n ns ih =>
    intro p hp
    cases ts with
    | nil => simp [zipArgs] at hp
    | cons t ts =>
      simp only [zipArgs, List.mem_cons] at hp
      rcases hp with rfl | hp
      · simp
      · have := ih ts p hp
        exact ⟨List.mem_cons_of_mem _ this.1, List.mem_cons_of_mem _ this.2⟩

/-- The lockstep zip of two nonempty lists is nonempty. -/
theorem zipArgs_ne_nil (ns : List GoStr) (ts : List ArgType)
    (h1 : ns ≠ []) (h2 : ts ≠ []) : zipArgs ns ts ≠ [] := by
  cases ns with
  | nil => exact absurd rfl h1
  | cons n ns =>
    cases ts with
    | nil => exact absurd rfl h2
    | cons t ts => simp [zipArgs]

/-- Every emitted input object is nonempty. -/
theorem abiInput_length_pos (n : GoStr) (t : ArgType) :
    0 < (abiInput n t).length := by
  have h9 : (("\x7b\"name\":\"").data).length = 9 := rfl
  simp [abiInput, h9]

/-- The joined inputs are at least as long as the list of inputs. -/
theorem length_le_abiInputs (pairs : List (GoStr × ArgType)) :
    pairs.length ≤ (abiInputs pairs).length := by
  induction pairs with
  | nil => simp [abiInputs]
  | cons p ps ih =>
    obtain ⟨n, t⟩ := p
    cases ps with
    | nil =>
      simpa [abiInputs] using abiInput_length_pos n t
    | cons q qs =>
      have hpos := abiInput_length_pos n t
      simp only [abiInputs, List.length_append, List.length_cons]
      simp only [List.length_cons] at ih ⊢
      omega

/-- Parsing the emitted inputs recovers the exact pair list, given enough
fuel and quote-free names and types. -/
theorem parseInputs_abiInputs (pairs : List (GoStr × ArgType)) :
    ∀ fuel, pairs ≠ [] → pairs.length ≤ fuel →
      (∀ p ∈ pairs, '"' ∉ p.1 ∧ '"' ∉ p.2.name) →
      parseInputs fuel (abiInputs pairs ++ litEnd) = some pairs := by
  induction pairs with
  | nil => intro fuel hne; exact absurd rfl hne
  | cons p ps ih =>
    rintro fuel - hfuel hq
    obtain ⟨n, tn, ti⟩ := p
    have hn : '"' ∉ n := (hq _ (List.mem_cons_self _ _)).1
    have ht : '"' ∉ tn := (hq _ (List.mem_cons_self _ _)).2
    obtain ⟨fuel, rfl⟩ : ∃ f, fuel = f + 1 := by
      cases fuel with
      | zero => simp at hfuel
      | succ f => exact ⟨f, rfl⟩
    have sqn : ∀ r, scanQuote (n ++ '"' :: r) = some (n, r) :=
      fun r => scanQuote_append n r hn
    have sqt : ∀ r, scanQuote (tn ++ '"' :: r) = some (tn, r) :=
      fun r => scanQuote_append tn r ht
    cases ps with
    | nil =>
      cases ti <;>
        simp [abiInputs, abiInput, parseInputs, List.append_assoc, dropLit_append,
          sqn, sqt, dropLit_true_false, dropLit_brace, parseInputsTail_end]
    | cons q qs =>
      have hq' : ∀ p ∈ q :: qs, '"' ∉ p.1 ∧ '"' ∉ p.2.name :=
        fun p hp => hq p (List.mem_cons_of_mem _ hp)
      have ih' := ih fuel (by simp) (by simpa using Nat.le_of_succ_le_succ hfuel) hq'
      cases ti <;>
        simp [abiInputs, abiInput, parseInputs, List.append_assoc, dropLit_append,
          sqn, sqt, dropLit_true_false, dropLit_brace, parseInputsTail_cons, ih']

/-- C4 (amended): for every valid event signature — one the emitter accepts
(nonempty name, argument and type lists), with no double-quote character in
the name, argument names or types, as in any Solidity-style declaration —
the ABI JSON produced by `ConstructABIFromEventSignature` encodes exactly
the `(name, argNames, argTypes)` triple of `ParseEventSignature`: the
grammar extraction `extractEventTriple` recovers it.  Applying
`ParseEventSignature` itself to the ABI JSON, as the claim literally
states, instead yields the empty triple because the JSON contains no `(`
(`C4_counterexample`). -/
theorem C4_amended (e : Event) (name : GoStr) (args : List GoStr)
    (tys : List ArgType) (s : GoStr)
    (hp : ParseEventSignature e = (name, args, tys))
    (hc : ConstructABIFromEventSignature e = .ok s)
    (hqn : '"' ∉ name) (hqa : ∀ a ∈ args, '"' ∉ a)
    (hqt : ∀ t ∈ tys, '"' ∉ t.name) :
    extractEventTriple s = some (name, args, tys) := by
  have hlen : args.length = tys.length := by
    have h := ParseEventSignature_lengths e
    rw [hp] at h
    exact h
  simp only [ConstructABIFromEventSignature, hp] at hc
  split at hc
  · exact absurd hc (by simp)
  · split at hc
    · exact absurd hc (by simp)
    · next h1 _ =>
      obtain rfl : s = litOuterPre ++ name ++ ['"'] ++ litOuterMid
          ++ abiInputs (zipArgs args tys) ++ litEnd := by
        have := Except.ok.inj hc
        exact this.symm
      push_neg at h1
      have hpairsne : zipArgs args tys ≠ [] := zipArgs_ne_nil args tys h1.2.1 h1.2.2
      have hqpairs : ∀ p ∈ zipArgs args tys, '"' ∉ p.1 ∧ '"' ∉ p.2.name := by
        intro p hp2
        have hm := zipArgs_mem args tys p hp2
        exact ⟨hqa _ hm.1, hqt _ hm.2⟩
      have sqn : ∀ r, scanQuote (name ++ '"' :: r) = some (name, r) :=
        fun r => scanQuote_append _ r hqn
      have hfuel : (zipArgs args tys).length ≤
          (abiInputs (zipArgs args tys)).length + litEnd.length := by
        have h := length_le_abiInputs (zipArgs args tys)
        omega
      have hparse := parseInputs_abiInputs (zipArgs args tys)
        ((abiInputs (zipArgs args tys)).length + litEnd.length) hpairsne hfuel hqpairs
      simp [extractEventTriple, List.append_assoc, dropLit_append, sqn, hparse,
        zipArgs_map_fst args tys hlen, zipArgs_map_snd args tys hlen]

set_option maxRecDepth 8000 in
/-- C4 counterexample: for the valid signature
`Transfer(address,address,uint256)` the emitter succeeds, but applying
`ParseEventSignature` to the emitted ABI JSON (which contains no `(`)
yields the empty triple, not the triple parsed from the signature — the
round trip as literally claimed fails. -/
theorem C4_counterexample :
    ConstructABIFromEventSignature evC4 = .ok abiC4 ∧
      ParseEventSignature { contract := [], eventSignature := abiC4, name := [] } ≠
        ParseEventSignature evC4 := by
  refine ⟨rfl, by decide⟩

set_option maxRecDepth 8000 in
/-- C4 witness: the amended round trip evaluated on the compact Transfer
signature. -/
theorem C4_witness :
    extractEventTriple abiC4 =
      some ((("Transfer").data),
        [("0").data, ("1").data, ("2").data],
        [⟨("address").data, false⟩, ⟨("address").data, false⟩,
          ⟨("uint256").data, false⟩]) :=
  C4_amended evC4 _ _ _ abiC4 (by decide) rfl (by decide) (by decide)
    (by decide)

/-- C2: at the declared type `int8` and topic hash `0x00…00ff`
(big-endian value `255`, bit 7 set), the code returns `-(255 mod 2^8)
= -255`, while an 8-bit two's-complement decode — what the claim, the
specification, and the code's own comment ("Handle sign extension")
require — is `255 - 2^8 = -1`.  The `uint` reading of the same hash is the
plain big-endian integer, as claimed. -/
theorem C2_int8_decode :
    convertHashToValue (("int8").data) bytesC2 = .ok (.intV (-255)) ∧
      convertHashToValue (("uint8").data) bytesC2 = .ok (.intV 255) ∧
      natFromBytes bytesC2 = 255 ∧
      ((-255 : Int) ≠ 255 - 2 ^ 8) := by
  refine ⟨rfl, rfl, by decide, by decide⟩

/-- C5 counterexample: a user op with nonce `0` and an init code of exactly
20 bytes, whose factory address holds no code, is not rejected — `Sponsor`
succeeds, because the source guards the factory check with
`len(initCode) > 20`, not `≥ 20` as claimed. -/
theorem C5_counterexample :
    useropC5.nonce = 0 ∧ useropC5.initCode.length = 20 ∧
      pmEnvC5.codeAt (bytesToAddress (useropC5.initCode.take 20)) = .ok [] ∧
      Sponsor pmEnvC5 1 useropC5 (("0xep").data) [] = .ok pdC5 := by
  refine ⟨rfl, by decide, by decide, by decide⟩

/-- C5 (amended): with the paymaster deployed and the entry-point address
present, `Sponsor` rejects a positive-nonce op whose init code is nonempty;
and when the nonce is `0` and the init code is strictly longer than 20
bytes (not `≥ 20`: at exactly 20 bytes no factory check fires, see
`C5_counterexample`), the factory address from the first 20 bytes must hold
code, the request being rejected otherwise. -/
theorem C5_amended (env : PmEnv) (pmAddr : Nat) (userop : GoUserOp)
    (epAddr ptType : GoStr) (bytecode : List Nat)
    (hcode : env.codeAt pmAddr = .ok bytecode) (hbc : bytecode.length ≠ 0)
    (hpm : env.newPaymaster pmAddr = .ok ()) (hep : epAddr ≠ []) :
    (userop.nonce > 0 → hexOfBytes userop.initCode ≠ ['0', 'x'] →
      Sponsor env pmAddr userop epAddr ptType =
        .err (("error init code is not empty even though nonce is not 0").data)) ∧
      (userop.nonce = 0 → userop.initCode.length > 20 →
        ∀ fb, env.codeAt (bytesToAddress (userop.initCode.take 20)) = .ok fb →
          fb.length = 0 →
          Sponsor env pmAddr userop epAddr ptType =
            .err (("error factory contract not found").data)) := by
  constructor
  · intro h1 h2
    simp only [Sponsor, hcode, hpm]
    rw [if_neg hbc, if_neg hep, if_pos ⟨h1, h2⟩]
  · intro h0 hlen fb hfb hfb0
    simp only [Sponsor, hcode, hpm]
    rw [if_neg hbc, if_neg hep,
      if_neg (fun h => by have := h.1; omega),
      if_pos ⟨h0, hlen⟩, hfb]
    dsimp only
    rw [if_pos hfb0]

/-- C5 witness: the amended factory check fired on a 21-byte init code with
an undeployed factory. -/
theorem C5_witness :
    Sponsor pmEnvC5 1 useropC5w (("0xep").data) [] =
      .err (("error factory contract not found").data) :=
  (C5_amended pmEnvC5 1 useropC5w (("0xep").data) [] [1] rfl (by decide) rfl
    (by decide)).2 rfl (by decide) [] rfl rfl

/-- C10: with the paymaster deployed and the entry point present, a decoded
user op whose calldata is shorter than 4 bytes makes `OOSponsor` panic at
the unguarded slice `userop.CallData[:4]`, while `Sponsor` on the same
input (nonce 0, empty init code) returns the validation error
`error call data is too short` before slicing. -/
theorem C10_short_calldata (env : PmEnv) (pmAddr : Nat) (userop : GoUserOp)
    (epAddr ptType : GoStr) (amount : Int) (bytecode : List Nat)
    (hcode : env.codeAt pmAddr = .ok bytecode) (hbc : bytecode.length ≠ 0)
    (hpm : env.newPaymaster pmAddr = .ok ()) (hep : epAddr ≠ [])
    (hshort : userop.callData.length < 4) :
    OOSponsor env pmAddr userop epAddr ptType amount =
        .panicked (("runtime error: slice bounds out of range").data) ∧
      (userop.nonce = 0 → userop.initCode = [] →
        Sponsor env pmAddr userop epAddr ptType =
          .err (("error call data is too short").data)) := by
  constructor
  · simp only [OOSponsor, hcode, hpm]
    rw [if_neg hbc, if_neg hep]
    simp only [goSliceTo, if_neg (by omega : ¬ 4 ≤ userop.callData.length)]
  · intro h0 hinit
    simp only [Sponsor, hcode, hpm]
    rw [if_neg hbc, if_neg hep,
      if_neg (fun h => by have := h.1; omega),
      if_neg (fun h => by have := h.2; rw [hinit] at this; simp at this)]
    dsimp only
    rw [if_pos hshort]

/-- C10 witness: the panic and the contrasting validation error evaluated
on a concrete one-byte calldata. -/
theorem C10_witness :
    OOSponsor pmEnvC5 1 useropC10 (("0xep").data) [] 10 =
        .panicked (("runtime error: slice bounds out of range").data) ∧
      Sponsor pmEnvC5 1 useropC10 (("0xep").data) [] =
        .err (("error call data is too short").data) := by
  have h := C10_short_calldata pmEnvC5 1 useropC10 (("0xep").data) [] 10 [1]
    rfl (by decide) rfl (by decide) (by decide)
  exact ⟨h.1, h.2 rfl rfl⟩

/-- C6 counterexample: an upload with no authorization event is rejected
with HTTP status 401 (`authentication required`), not 404 as the claim
states; expiration is not examined by this hook at all. -/
theorem C6_counterexample :
    rejectUpload noMembers none 0 =
        (true, ("authentication required").data, 401) ∧
      (401 : Nat) ≠ 404 := by
  exact ⟨rfl, by decide⟩

/-- C6 (amended): a body over 50 MiB is rejected with 413 (checked first);
a missing authorization event is rejected with 401, not 404 — the hook
never examines expiration, which is enforced upstream by the Blossom
server library before this hook runs; and when the auth event names a
group in its `h` tag and the membership scan denies the pubkey, the upload
is rejected with 403. -/
theorem C6_amended (isMember : GoStr → GoStr → Except GoStr Bool)
    (auth : Option NEvent) (size : Nat) :
    (size > MaxFileSize →
        rejectUpload isMember auth size =
          (true, ("file too large, max size is 50 MB").data, 413)) ∧
      (size ≤ MaxFileSize → auth = none →
        rejectUpload isMember auth size =
          (true, ("authentication required").data, 401)) ∧
      (∀ a x, size ≤ MaxFileSize → auth = some a →
        tagsGetFirst a.tags (("x").data) = some x → ¬ x.length < 2 →
        blossomGroupID a ≠ [] →
        isMember a.pubkey (blossomGroupID a) = .ok false →
        rejectUpload isMember auth size =
          (true, ("not a member of the specified group").data, 403)) := by
  refine ⟨fun hsz => ?_, fun hsz hnone => ?_, fun a x hsz hsome hx hxl hg hm => ?_⟩
  · simp only [rejectUpload, if_pos hsz]
  · subst hnone
    simp only [rejectUpload, if_neg (by omega : ¬ size > MaxFileSize)]
  · subst hsome
    simp only [rejectUpload, if_neg (by omega : ¬ size > MaxFileSize), hx,
      if_neg hxl]
    rw [if_pos hg, hm]

/-- C6 witness: the amended clauses evaluated — a denied group member is
rejected with 403. -/
theorem C6_witness :
    rejectUpload noMembers (some authC6) 0 =
      (true, ("not a member of the specified group").data, 403) :=
  (C6_amended noMembers (some authC6) 0).2.2 authC6
    [("x").data, ("hash").data] (by decide) rfl rfl (by decide) (by decide) rfl

/-- C7 counterexample: a kind-9021 join request — an event "of any other
kind carrying an h tag naming group G" in the claim's words — from a
non-member of the existing group `g` is admitted (that is the purpose of a
join request), refuting the claim's quantification over every non-content
kind. -/
theorem C7_counterexample :
    evC7.kind = 9021 ∧ getHTag evC7 = ("g").data ∧
      oracleC7.isMember evC7.pubkey (("g").data) = .ok false ∧
      ValidateEvent oracleC7 evC7 = (false, []) := by
  refine ⟨rfl, by decide, by decide, by decide⟩

/-- C7 (amended): an event of kind 9, 10, 11 or 12, or of any kind without
a dedicated NIP-29 handler (not 9000, 9001, 9002, 9005, 9007, 9008, 9021
or 9022), that carries an `h` tag naming group `G` is rejected whenever its
author is not currently a member of `G` (admins counting as members, as in
`IsMember`); kinds with dedicated handlers — join requests in particular —
follow their own admission rules instead (`C7_counterexample`). -/
theorem C7_amended (g : GroupOracle) (e : NEvent) (G : GoStr)
    (hG : getHTag e = G) (hne : G ≠ [])
    (hm : g.isMember e.pubkey G = .ok false)
    (hkind : e.kind = 9 ∨ e.kind = 10 ∨ e.kind = 11 ∨ e.kind = 12 ∨
      e.kind ∉ ([9000, 9001, 9002, 9005, 9007, 9008, 9021, 9022] : List Int)) :
    ValidateEvent g e = (true, ("only group members can post content").data) := by
  have hcontent : validateGroupContent g e =
      (true, ("only group members can post content").data) := by
    simp only [validateGroupContent, hG]
    rw [if_neg hne, hm]
  rcases hkind with h | h | h | h | h
  · simp [ValidateEvent, h, KindCreateGroup, KindPutUser, KindRemoveUser,
      KindEditMetadata, KindDeleteEvent, KindDeleteGroup, KindJoinRequest,
      KindLeaveRequest, hcontent]
  · simp [ValidateEvent, h, KindCreateGroup, KindPutUser, KindRemoveUser,
      KindEditMetadata, KindDeleteEvent, KindDeleteGroup, KindJoinRequest,
      KindLeaveRequest, hcontent]
  · simp [ValidateEvent, h, KindCreateGroup, KindPutUser, KindRemoveUser,
      KindEditMetadata, KindDeleteEvent, KindDeleteGroup, KindJoinRequest,
      KindLeaveRequest, hcontent]
  · simp [ValidateEvent, h, KindCreateGroup, KindPutUser, KindRemoveUser,
      KindEditMetadata, KindDeleteEvent, KindDeleteGroup, KindJoinRequest,
      KindLeaveRequest, hcontent]
  · simp only [List.mem_cons, List.not_mem_nil, or_false, not_or] at h
    obtain ⟨h0, h1, h2, h5, h7, h8, h21, h22⟩ := h
    have hh : hasHTag e = true := by
      simp [hasHTag, hG, hne]
    simp only [ValidateEvent, KindCreateGroup, KindPutUser, KindRemoveUser,
      KindEditMetadata, KindDeleteEvent, KindDeleteGroup, KindJoinRequest,
      KindLeaveRequest, if_neg h7, if_neg h0, if_neg h1, if_neg h2, if_neg h5,
      if_neg h8, if_neg h21, if_neg h22]
    by_cases hc : e.kind = 9 ∨ e.kind = 10 ∨ e.kind = 11 ∨ e.kind = 12
    · rw [if_pos hc, hcontent]
    · rw [if_neg hc, if_pos hh, hcontent]

/-- C7 witness: a kind-9 chat message for group `g` from a non-member is
rejected. -/
theorem C7_witness :
    ValidateEvent oracleC7 evC7w =
      (true, ("only group members can post content").data) :=
  C7_amended oracleC7 evC7w (("g").data) (by decide) (by decide) rfl
    (Or.inl rfl)

/-- C8 counterexample: at base fee 0.01 Gwei (high-cost branch) and a gas
estimate of `2^63`, the `uint64` product `gasLimit * 50` wraps to `0`, so
the buffer actually added is `0`, not 50% of the estimate as claimed. -/
theorem C8_counterexample :
    NewTx ethEnvC8 0 0 = .ok newTxOutC8 ∧
      newTxOutC8.gasLimit = 2 ^ 63 ∧
      newTxOutC8.gasBuffer = 0 ∧
      newTxOutC8.gasBuffer ≠ 2 ^ 63 * 50 / 100 := by
  refine ⟨by decide, by decide, by decide, by decide⟩

/-- C8 (amended): when the observed base fee is below 0.01 Gwei the
priority-fee floor applied is 0.001 Gwei, the base-fee multiplier is 1 and
the gas buffer is `max(50% of the estimate, 20000, 5% of the estimate)`;
otherwise the floor is 1 Gwei, the multiplier is 2, and the buffer is
`gasLimit * 50 / 100` in 64-bit arithmetic — equal to 50% of the estimate
whenever `50 * estimate < 2^64`, the wrap being reachable only for
estimates of at least `2^64 / 50` (`C8_counterexample`); and whenever
`extraGasTier ≥ 1` both fee caps equal `(1 + tier)` times the pre-buffer
max-fee and max-priority-fee values. -/
theorem C8_amended (env : EthEnv) (nonce : Nat) (extraGas : Int)
    (bf tip0 gl : Nat) (out : NewTxOut)
    (hbf : env.baseFee = .ok bf) (htip : env.maxPriorityFeePerGas = .ok tip0)
    (hgl : env.estimateGas = .ok gl)
    (hout : NewTx env nonce extraGas = .ok out)
    (hnw : gl * 50 < U64) :
    (bf < 10000000 →
        out.tipAfterFloor = max tip0 1000000 ∧
        out.maxPriorityFee = out.tipAfterFloor ∧
        out.maxFeePerGas = out.maxPriorityFee + bf * 1 ∧
        out.gasBuffer = max (max (gl / 2) 20000) (gl / 20)) ∧
      (¬ bf < 10000000 →
        out.tipAfterFloor = max tip0 1000000000 ∧
        out.maxFeePerGas = out.maxPriorityFee + bf * 2 ∧
        out.gasBuffer = gl * 50 / 100) ∧
      (extraGas ≥ 1 →
        out.gasFeeCap = (1 + extraGas) * (out.maxFeePerGas : Int) ∧
        out.gasTipCap = (1 + extraGas) * (out.maxPriorityFee : Int)) := by
  simp only [NewTx, hbf, htip, hgl] at hout
  obtain rfl := (Except.ok.inj hout).symm
  refine ⟨fun hlc => ?_, fun hlc => ?_, fun hx => ?_⟩
  · refine ⟨?_, ?_, ?_, ?_⟩
    · simp only [if_pos hlc]
      split <;> omega
    · simp only [if_pos hlc]
    · simp only [if_pos hlc]
    · simp only [if_pos hlc]
      split
      · split <;> omega
      · omega
  · refine ⟨?_, ?_, ?_⟩
    · simp only [if_neg hlc]
      split <;> omega
    · simp only [if_neg hlc]
    · simp only [if_neg hlc]
      rw [Nat.mod_eq_of_lt hnw]
  · have hx' : extraGas > 0 := by omega
    refine ⟨?_, ?_⟩ <;>
      · simp only [if_pos hx']
        ring

/-- C8 witness: the amended policy evaluated on a low-cost network (base
fee 0.005 Gwei) with a 30k gas estimate and a replacement bump of 2. -/
theorem C8_witness :
    newTxOutC8w.tipAfterFloor = max 0 1000000 ∧
      newTxOutC8w.maxFeePerGas = newTxOutC8w.maxPriorityFee + 5000000 * 1 ∧
      newTxOutC8w.gasBuffer = max (max (30000 / 2) 20000) (30000 / 20) ∧
      newTxOutC8w.gasFeeCap = (1 + 2) * (newTxOutC8w.maxFeePerGas : Int) ∧
      newTxOutC8w.gasTipCap = (1 + 2) * (newTxOutC8w.maxPriorityFee : Int) := by
  have h := C8_amended ethEnvC8w 7 2 5000000 0 30000 newTxOutC8w rfl rfl rfl
    (by decide) (by decide)
  obtain ⟨hlow, -, hx⟩ := h
  obtain ⟨t1, -, t3, t4⟩ := hlow (by decide)
  obtain ⟨x1, x2⟩ := hx (by decide)
  exact ⟨t1, t3, t4, x1, x2⟩

/-- Updating the map at `a` and reading at `a`. -/
theorem setInProg_self (f : Nat → List Nat) (a : Nat) (v : List Nat) :
    setInProg f a v a = v := by simp [setInProg]

/-- Updating the map at `a` leaves other keys unchanged. -/
theorem setInProg_other (f : Nat → List Nat) (a : Nat) (v : List Nat) (b : Nat)
    (hb : b ≠ a) : setInProg f a v b = f b := by simp [setInProg, hb]

/-- What one sponsor group can do: leave `inProgress[a]` alone (failure
before signing), append a hash without submitting (the `GetEvents` failure
path), or make exactly one submission whose transaction nonce is the
on-chain nonce plus the prior `inProgress[a]` length and whose snapshot is
the prior list with the signed hash appended — `inProgress[a]` afterwards
keeping the hash (success) or dropping it (send failure). -/
theorem processGroup_spec (env : QueueEnv) (cnt : Nat) (inProg : Nat → List Nat)
    (a : Nat) (msgs : List Message) (txms : List UserOpMessage) (d : GroupDelta)
    (h : processGroup env cnt inProg a msgs txms = .ok d) :
    (∀ b, b ≠ a → d.inProgress b = inProg b) ∧
      ((d.submittedAdd = [] ∧ d.inProgress a = inProg a) ∨
        (∃ hs, d.submittedAdd = [] ∧ d.inProgress a = inProg a ++ [hs]) ∨
        (∃ s, d.submittedAdd = [s] ∧ s.sponsor = a ∧
          s.snap = inProg a ++ [s.stx.hash] ∧
          (∀ n, env.nonceAt a = .ok n → s.stx.tx.nonce = n + (inProg a).length) ∧
          (d.inProgress a = inProg a ++ [s.stx.hash] ∨
            d.inProgress a =
              (inProg a ++ [s.stx.hash]).filter (fun x => x ≠ s.stx.hash)))) := by
  cases txms with
  | nil =>
    simp only [processGroup] at h
    injection h with h
    subst h
    exact ⟨fun b hb => rfl, Or.inl ⟨rfl, rfl⟩⟩
  | cons sampleTxm rest =>
    simp only [processGroup] at h
    cases hgs : env.getSponsor cnt sampleTxm.paymaster with
    | error e =>
      simp only [hgs] at h
      injection h with h
      subst h
      exact ⟨fun b hb => rfl, Or.inl ⟨rfl, rfl⟩⟩
    | ok sponsorKey =>
    simp only [hgs] at h
    cases hpk : env.hexToPrivateKey sponsorKey.privateKey with
    | error e =>
      simp only [hpk] at h
      injection h with h
      subst h
      exact ⟨fun b hb => rfl, Or.inl ⟨rfl, rfl⟩⟩
    | ok pk =>
    simp only [hpk] at h
    cases hna : env.nonceAt a with
    | error e =>
      simp only [hna] at h
      injection h with h
      subst h
      exact ⟨fun b hb => rfl, Or.inl ⟨rfl, rfl⟩⟩
    | ok nonce0 =>
    simp only [hna] at h
    cases habi : env.entryPointAbi with
    | error e =>
      simp only [habi] at h
      injection h with h
      subst h
      exact ⟨fun b hb => rfl, Or.inl ⟨rfl, rfl⟩⟩
    | ok u =>
    simp only [habi] at h
    cases hpack : env.packHandleOps ((sampleTxm :: rest).map (fun t => t.userOp))
        sampleTxm.entryPoint with
    | error e =>
      simp only [hpack] at h
      injection h with h
      subst h
      exact ⟨fun b hb => rfl, Or.inl ⟨rfl, rfl⟩⟩
    | ok callData =>
    simp only [hpack] at h
    cases hnt : env.newTxBlob (nonce0 + (inProg a).length) a sampleTxm.entryPoint
        callData sampleTxm.bumpGas with
    | error e =>
      simp only [hnt] at h
      injection h with h
      subst h
      exact ⟨fun b hb => rfl, Or.inl ⟨rfl, rfl⟩⟩
    | ok blob =>
    simp only [hnt] at h
    cases hst : env.signTx ⟨nonce0 + (inProg a).length, blob⟩ sampleTxm.chainId pk with
    | error e =>
      simp only [hst] at h
      injection h with h
      subst h
      exact ⟨fun b hb => rfl, Or.inl ⟨rfl, rfl⟩⟩
    | ok signedTxHash =>
    simp only [hst] at h
    cases hge : env.getEvents with
    | error e =>
      simp only [hge] at h
      injection h with h
      subst h
      refine ⟨fun b hb => by simp [setInProg, hb], ?_⟩
      exact Or.inr (Or.inl ⟨signedTxHash, rfl, by simp [setInProg]⟩)
    | ok events =>
    simp only [hge] at h
    cases hsend : env.sendTransaction ⟨⟨nonce0 + (inProg a).length, blob⟩, signedTxHash⟩ with
    | ok =>
      simp only [hsend] at h
      injection h with h
      subst h
      refine ⟨fun b hb => by simp [setInProg, hb], ?_⟩
      refine Or.inr (Or.inr ⟨_, rfl, rfl, rfl, ?_, Or.inl (by simp [setInProg])⟩)
      intro n hn
      injection hn with hn
      subst hn
      rfl
    | rpcErr code msg =>
      simp only [hsend] at h
      by_cases h1 : code = -32010
      · rw [if_pos h1] at h
        injection h with h
        subst h
        refine ⟨fun b hb => by simp [setInProg, hb], ?_⟩
        refine Or.inr (Or.inr ⟨_, rfl, rfl, rfl, ?_, Or.inr (by simp [setInProg])⟩)
        intro n hn
        injection hn with hn
        subst hn
        rfl
      · rw [if_neg h1] at h
        by_cases h2 : code ≠ -32000
        · rw [if_pos h2] at h
          injection h with h
          subst h
          refine ⟨fun b hb => by simp [setInProg, hb], ?_⟩
          refine Or.inr (Or.inr ⟨_, rfl, rfl, rfl, ?_, Or.inr (by simp [setInProg])⟩)
          intro n hn
          injection hn with hn
          subst hn
          rfl
        · rw [if_neg h2] at h
          by_cases h3 : ¬ goContainsSub (("insufficient funds").data) msg
          · rw [if_pos h3] at h
            injection h with h
            subst h
            refine ⟨fun b hb => by simp [setInProg, hb], ?_⟩
            refine Or.inr (Or.inr ⟨_, rfl, rfl, rfl, ?_, Or.inr (by simp [setInProg])⟩)
            intro n hn
            injection hn with hn
            subst hn
            rfl
          · rw [if_neg h3] at h
            injection h with h
            subst h
            refine ⟨fun b hb => by simp [setInProg, hb], ?_⟩
            refine Or.inr (Or.inr ⟨_, rfl, rfl, rfl, ?_, Or.inr (by simp [setInProg])⟩)
            intro n hn
            injection hn with hn
            subst hn
            rfl
    | nonRpcErr m =>
      simp only [hsend] at h
      exact (GoRes.noConfusion h)

/-- `subsFor` distributes over append. -/
theorem subsFor_append (a : Nat) (x y : List Submission) :
    subsFor a (x ++ y) = subsFor a x ++ subsFor a y := by
  simp [subsFor, List.filter_append]

/-- A group keyed by a different sponsor contributes no submissions for `a`. -/
theorem processGroup_subsFor_ne (env : QueueEnv) (cnt : Nat)
    (inProg : Nat → List Nat) (g : Nat) (msgs : List Message)
    (txms : List UserOpMessage) (d : GroupDelta)
    (h : processGroup env cnt inProg g msgs txms = .ok d)
    (b : Nat) (hb : b ≠ g) : subsFor b d.submittedAdd = [] := by
  obtain ⟨-, hcases⟩ := processGroup_spec env cnt inProg g msgs txms d h
  rcases hcases with ⟨h1, -⟩ | ⟨hs, h1, -⟩ | ⟨s, h1, hsp, -⟩
  · rw [h1]; rfl
  · rw [h1]; rfl
  · rw [h1]
    simp only [subsFor, List.filter_cons, List.filter_nil]
    rw [hsp]
    have hgb : ¬ g = b := fun e => hb e.symm
    simp [hgb]

/-- The keys of `addToGroup`: unchanged when the sponsor is already present,
otherwise the sponsor is appended at the end. -/
theorem addToGroup_keys (gs : List GroupEntry) (a : Nat) (m : Message)
    (t : UserOpMessage) :
    (addToGroup gs a m t).map (fun g => g.1) =
      if a ∈ gs.map (fun g => g.1) then gs.map (fun g => g.1)
      else gs.map (fun g => g.1) ++ [a] := by
  induction gs with
  | nil => simp [addToGroup]
  | cons g rest ih =>
    obtain ⟨b, ms, ts⟩ := g
    by_cases hb : b = a
    · subst hb
      simp [addToGroup]
    · simp only [addToGroup, if_neg hb, List.map_cons, ih, List.mem_cons]
      by_cases hmem : a ∈ rest.map (fun g => g.1)
      · rw [if_pos hmem, if_pos (Or.inr hmem)]
      · rw [if_neg hmem, if_neg ?_]
        · simp
        · rintro (h1 | h2)
          · exact hb h1.symm
          · exact hmem h2

/-- `addToGroup` preserves distinctness of sponsor keys. -/
theorem addToGroup_nodup (gs : List GroupEntry) (a : Nat) (m : Message)
    (t : UserOpMessage) (h : (gs.map (fun g => g.1)).Nodup) :
    ((addToGroup gs a m t).map (fun g => g.1)).Nodup := by
  rw [addToGroup_keys]
  by_cases hmem : a ∈ gs.map (fun g => g.1)
  · rwa [if_pos hmem]
  · rw [if_neg hmem]
    simp [List.nodup_append, h, hmem]

/-- The grouping phase keeps sponsor keys distinct. -/
theorem groupPhase_nodup (env : QueueEnv) :
    ∀ (msgs : List Message) (acc : Grouped),
      ((acc.groups.map (fun g => g.1)).Nodup) →
      (((groupPhase env msgs acc).groups.map (fun g => g.1)).Nodup) := by
  intro msgs
  induction msgs with
  | nil => intro acc h; simpa [groupPhase] using h
  | cons m rest ih =>
    intro acc h
    simp only [groupPhase]
    cases hp : m.payload with
    | other tag =>
      dsimp only
      exact ih _ h
    | userOp txm =>
      dsimp only
      cases hgs : env.getSponsor acc.counter txm.paymaster with
      | error e =>
        dsimp only
        exact ih _ h
      | ok sponsorKey =>
        dsimp only
        cases hpk : env.hexToPrivateKey sponsorKey.privateKey with
        | error e =>
          dsimp only
          exact ih _ h
        | ok pk =>
          dsimp only
          exact ih _ (addToGroup_nodup _ _ _ _ h)

/-- Running the per-group loop over groups none of which is keyed by `a`
leaves `inProgress[a]` and the `a`-submissions untouched. -/
theorem procGroups_not_mem (env : QueueEnv) (a : Nat) :
    ∀ (groups : List GroupEntry) (cnt : Nat) (inProg : Nat → List Nat)
      (acc out : ProcOut),
      procGroups env cnt inProg acc groups = .ok out →
      (∀ g ∈ groups, g.1 ≠ a) →
      out.inProgress a = inProg a ∧
        subsFor a out.submitted = subsFor a acc.submitted := by
  intro groups
  induction groups with
  | nil =>
    intro cnt inProg acc out h hmem
    simp only [procGroups] at h
    injection h with h
    subst h
    exact ⟨rfl, rfl⟩
  | cons g rest ih =>
    intro cnt inProg acc out h hmem
    simp only [procGroups] at h
    cases hpg : processGroup env cnt inProg g.1 g.2.1 g.2.2 with
    | panicked msg =>
      rw [hpg] at h
      exact (GoRes.noConfusion h)
    | ok d =>
      simp only [hpg] at h
      have hga : g.1 ≠ a := hmem g (List.mem_cons_self g rest)
      have hrest : ∀ g2 ∈ rest, g2.1 ≠ a := fun g2 hg2 => hmem g2 (List.mem_cons_of_mem g hg2)
      have ihres := ih (cnt + 1) d.inProgress _ out h hrest
      have hfr : d.inProgress a = inProg a :=
        (processGroup_spec env cnt inProg g.1 g.2.1 g.2.2 d hpg).1 a
          (fun e => hga e.symm)
      have hsub : subsFor a d.submittedAdd = [] :=
        processGroup_subsFor_ne env cnt inProg g.1 g.2.1 g.2.2 d hpg a
          (fun e => hga e.symm)
      refine ⟨ihres.1.trans hfr, ?_⟩
      rw [ihres.2]
      show subsFor a (acc.submitted ++ d.submittedAdd) = subsFor a acc.submitted
      rw [subsFor_append, hsub, List.append_nil]

/-- Running the per-group loop over groups with distinct keys, one of which
is `a`: for `a`, the outcome is exactly one `processGroup` outcome threaded
through the frame of the other groups. -/
theorem procGroups_mem (env : QueueEnv) (a : Nat) :
    ∀ (groups : List GroupEntry) (cnt : Nat) (inProg : Nat → List Nat)
      (acc out : ProcOut),
      procGroups env cnt inProg acc groups = .ok out →
      (groups.map (fun g => g.1)).Nodup →
      a ∈ groups.map (fun g => g.1) →
      ((subsFor a out.submitted = subsFor a acc.submitted ∧
          out.inProgress a = inProg a) ∨
        (∃ hs, subsFor a out.submitted = subsFor a acc.submitted ∧
          out.inProgress a = inProg a ++ [hs]) ∨
        (∃ s, subsFor a out.submitted = subsFor a acc.submitted ++ [s] ∧
          s.sponsor = a ∧ s.snap = inProg a ++ [s.stx.hash] ∧
          (∀ n, env.nonceAt a = .ok n → s.stx.tx.nonce = n + (inProg a).length) ∧
          (out.inProgress a = inProg a ++ [s.stx.hash] ∨
            out.inProgress a =
              (inProg a ++ [s.stx.hash]).filter (fun x => x ≠ s.stx.hash)))) := by
  intro groups
  induction groups with
  | nil =>
    intro cnt inProg acc out h hnd hmem
    simp at hmem
  | cons g rest ih =>
    intro cnt inProg acc out h hnd hmem
    simp only [procGroups] at h
    cases hpg : processGroup env cnt inProg g.1 g.2.1 g.2.2 with
    | panicked msg =>
      rw [hpg] at h
      exact (GoRes.noConfusion h)
    | ok d =>
      simp only [hpg] at h
      simp only [List.map_cons, List.nodup_cons] at hnd
      by_cases hga : g.1 = a
      · subst hga
        have hrest : ∀ g2 ∈ rest, g2.1 ≠ g.1 := by
          intro g2 hg2 e
          apply hnd.1
          rw [← e]
          exact List.mem_map_of_mem _ hg2
        have hnm := procGroups_not_mem env g.1 rest (cnt + 1) d.inProgress _ out h hrest
        have hsub2 : subsFor g.1 out.submitted =
            subsFor g.1 acc.submitted ++ subsFor g.1 d.submittedAdd := by
          rw [hnm.2]
          exact subsFor_append g.1 acc.submitted d.submittedAdd
        obtain ⟨-, hcases⟩ := processGroup_spec env cnt inProg g.1 g.2.1 g.2.2 d hpg
        rcases hcases with ⟨h1, h2⟩ | ⟨hs, h1, h2⟩ | ⟨s, h1, hsp, hsnap, hnonce, hip⟩
        · refine Or.inl ⟨?_, by rw [hnm.1, h2]⟩
          rw [hsub2, h1]
          simp [subsFor]
        · refine Or.inr (Or.inl ⟨hs, ?_, by rw [hnm.1, h2]⟩)
          rw [hsub2, h1]
          simp [subsFor]
        · refine Or.inr (Or.inr ⟨s, ?_, hsp, hsnap, hnonce, ?_⟩)
          · rw [hsub2, h1]
            simp [subsFor, hsp]
          · exact hip.imp (fun e => hnm.1.trans e) (fun e => hnm.1.trans e)
      · have hmem' : a ∈ rest.map (fun x => x.1) := by
          simp only [List.map_cons, List.mem_cons] at hmem
          rcases hmem with h1 | h1
          · exact absurd h1.symm hga
          · exact h1
        have hfr : d.inProgress a = inProg a :=
          (processGroup_spec env cnt inProg g.1 g.2.1 g.2.2 d hpg).1 a
            (fun e => hga e.symm)
        have hsubne : subsFor a d.submittedAdd = [] :=
          processGroup_subsFor_ne env cnt inProg g.1 g.2.1 g.2.2 d hpg a
            (fun e => hga e.symm)
        have hacc : subsFor a (acc.submitted ++ d.submittedAdd) =
            subsFor a acc.submitted := by
          rw [subsFor_append, hsubne, List.append_nil]
        have ihres := ih (cnt + 1) d.inProgress _ out h hnd.2 hmem'
        dsimp only at ihres
        rw [hacc, hfr] at ihres
        exact ihres

/-- `subsFor` of an empty list. -/
theorem subsFor_nil (a : Nat) : subsFor a [] = [] := rfl

/-- A single `Process` call, viewed from one sponsor `a`: either nothing
for `a` happened, or a hash was appended without a submission (`GetEvents`
failure), or exactly one transaction was submitted for `a`, with nonce
`nonceAt a + len(inProgress[a])` and with the signed hash appended to
`inProgress[a]` at submission time. -/
theorem Process_for_sponsor (env : QueueEnv) (inProg0 : Nat → List Nat)
    (messages : List Message) (out : ProcOut) (a : Nat)
    (h : Process env inProg0 messages = .ok out) :
    ((subsFor a out.submitted = [] ∧ out.inProgress a = inProg0 a) ∨
      (∃ hs, subsFor a out.submitted = [] ∧
        out.inProgress a = inProg0 a ++ [hs]) ∨
      (∃ s, subsFor a out.submitted = [s] ∧ s.sponsor = a ∧
        s.snap = inProg0 a ++ [s.stx.hash] ∧
        (∀ n, env.nonceAt a = .ok n → s.stx.tx.nonce = n + (inProg0 a).length) ∧
        (out.inProgress a = inProg0 a ++ [s.stx.hash] ∨
          out.inProgress a =
            (inProg0 a ++ [s.stx.hash]).filter (fun x => x ≠ s.stx.hash)))) := by
  simp only [Process] at h
  have hnd : ((((groupPhase env messages ⟨[], [], [], 0⟩).groups).map
      (fun g => g.1)).Nodup) :=
    groupPhase_nodup env messages ⟨[], [], [], 0⟩ (by simp)
  by_cases hmem :
      a ∈ ((groupPhase env messages ⟨[], [], [], 0⟩).groups).map (fun g => g.1)
  · have hres := procGroups_mem env a _ _ inProg0 _ out h hnd hmem
    dsimp only at hres
    simp only [subsFor_nil, List.nil_append] at hres
    exact hres
  · have hres := procGroups_not_mem env a _ _ inProg0 _ out h ?_
    · refine Or.inl ⟨?_, hres.1⟩
      rw [hres.2]
      rfl
    · intro g2 hg2 e
      exact hmem (e ▸ List.mem_map_of_mem _ hg2)

/-- Filtering a hash back out of an appended list cannot keep the list as
long as the appended version. -/
theorem filter_concat_self_length (l : List Nat) (x : Nat) :
    (((l ++ [x]).filter (fun y => y ≠ x)).length) ≤ l.length := by
  rw [List.filter_append]
  have h1 : ([x].filter (fun y => y ≠ x)) = [] := by simp
  rw [h1, List.append_nil]
  exact List.length_filter_le _ l

/-- The last element of a list with `x` appended is `x`. -/
theorem getLast_append_single (l : List Nat) (x : Nat) :
    (l ++ [x]).getLast? = some x := by simp

/-- Reading index 0 of a cons. -/
theorem get_zero_cons (x : ProcOut) (l : List ProcOut) (h : 0 < (x :: l).length) :
    (x :: l).get ⟨0, h⟩ = x := rfl

/-- Reading a successor index of a cons. -/
theorem get_succ_cons (x : ProcOut) (l : List ProcOut) (j : Nat)
    (h : j + 1 < (x :: l).length) :
    (x :: l).get ⟨j + 1, h⟩ =
      l.get ⟨j, by simp only [List.length_cons] at h; omega⟩ := rfl

/-- A run of consecutive `Process` calls in which every call makes exactly
one submission for sponsor `a` and `inProgress[a]` grows by one hash per
call: the `j`-th call's transaction uses nonce
`nonceAt a + initial length + j`, its snapshot is the post-call
`inProgress[a]`, and the submitted hash sits at the end of that snapshot. -/
theorem processRun_nonces (env : QueueEnv) (a n : Nat)
    (hn : env.nonceAt a = .ok n) :
    ∀ (batches : List (List Message)) (st0 : Nat → List Nat)
      (outs : List ProcOut),
      processRun env st0 batches = .ok outs →
      (∀ j (hj : j < outs.length),
        (subsFor a ((outs.get ⟨j, hj⟩).submitted)).length = 1 ∧
          ((outs.get ⟨j, hj⟩).inProgress a).length = (st0 a).length + j + 1) →
      ∀ j (hj : j < outs.length),
        ∀ s ∈ subsFor a ((outs.get ⟨j, hj⟩).submitted),
          s.stx.tx.nonce = n + (st0 a).length + j ∧
            s.snap = (outs.get ⟨j, hj⟩).inProgress a ∧
            s.snap.getLast? = some s.stx.hash := by
  intro batches
  induction batches with
  | nil =>
    intro st0 outs h hgrow j hj
    simp only [processRun] at h
    injection h with h
    subst h
    exact absurd hj (by simp)
  | cons b bs ih =>
    intro st0 outs h hgrow j hj
    simp only [processRun] at h
    cases hp : Process env st0 b with
    | panicked m =>
      rw [hp] at h
      exact (GoRes.noConfusion h)
    | ok out =>
      simp only [hp] at h
      cases hr : processRun env out.inProgress bs with
      | panicked m =>
        rw [hr] at h
        exact (GoRes.noConfusion h)
      | ok rests =>
        simp only [hr] at h
        injection h with h
        subst h
        have hlen1 : (out.inProgress a).length = (st0 a).length + 1 := by
          have hg0 := (hgrow 0 (by simp)).2
          simpa using hg0
        cases j with
        | zero =>
          intro s hs
          have hPf := Process_for_sponsor env st0 b out a hp
          have hg0 := hgrow 0 (by simp)
          simp only [get_zero_cons] at hg0 hs ⊢
          rcases hPf with ⟨h1, h2⟩ | ⟨hsh, h1, h2⟩ | ⟨s0, h1, hsp, hsnap, hnonce, hip⟩
          · rw [h1] at hg0
            simp at hg0
          · rw [h1] at hg0
            simp at hg0
          · rw [h1] at hs
            simp only [List.mem_singleton] at hs
            subst hs
            refine ⟨?_, ?_, ?_⟩
            · have hh := hnonce n hn
              omega
            · rcases hip with he | he
              · rw [hsnap, he]
              · exfalso
                have hle := filter_concat_self_length (st0 a) s.stx.hash
                rw [← he] at hle
                have h2g := hg0.2
                omega
            · rw [hsnap]
              exact getLast_append_single _ _
        | succ j =>
          intro s hs
          have hj2 : j < rests.length := by
            simp only [List.length_cons] at hj
            omega
          have hgrow2 : ∀ j2 (hj2b : j2 < rests.length),
              (subsFor a ((rests.get ⟨j2, hj2b⟩).submitted)).length = 1 ∧
                ((rests.get ⟨j2, hj2b⟩).inProgress a).length =
                  (out.inProgress a).length + j2 + 1 := by
            intro j2 hj2b
            have hgj := hgrow (j2 + 1) (by simp only [List.length_cons]; omega)
            simp only [get_succ_cons] at hgj
            refine ⟨hgj.1, ?_⟩
            rw [hgj.2, hlen1]
            omega
          have hs2 : s ∈ subsFor a ((rests.get ⟨j, hj2⟩).submitted) := by
            simpa only [get_succ_cons] using hs
          have ihres := ih out.inProgress rests hr hgrow2 j hj2 s hs2
          refine ⟨?_, ?_, ihres.2.2⟩
          · have h1 := ihres.1
            rw [hlen1] at h1
            omega
          · simpa only [get_succ_cons] using ihres.2.1

/-- C1: for every sponsor `a`, each transaction submitted for `a` uses
nonce `nonceAt a + len(inProgress[a])`, the signed hash is appended to
`inProgress[a]` at submission time (`s.snap`, taken when `SendTransaction`
is called, is the prior list with the hash appended, and equals the
post-call `inProgress[a]` when the run keeps every hash); hence over
consecutive `Process` calls with the on-chain nonce unchanged and no
waiter removals — so that `inProgress[a]` starts empty and grows by
exactly the one submitted hash per call — the call at position `j` of the
run submits nonce `nonceAt a + j`, strictly increasing in `j`. -/
theorem C1_nonce_sequencing (env : QueueEnv) (st0 : Nat → List Nat)
    (batches : List (List Message)) (outs : List ProcOut) (a n : Nat)
    (hrun : processRun env st0 batches = .ok outs)
    (hn : env.nonceAt a = .ok n) (h0 : st0 a = [])
    (hone : ∀ j (hj : j < outs.length),
      (subsFor a ((outs.get ⟨j, hj⟩).submitted)).length = 1 ∧
        ((outs.get ⟨j, hj⟩).inProgress a).length = j + 1) :
    ∀ j (hj : j < outs.length),
      ∀ s ∈ subsFor a ((outs.get ⟨j, hj⟩).submitted),
        s.stx.tx.nonce = n + j ∧
          s.snap = (outs.get ⟨j, hj⟩).inProgress a ∧
          s.snap.getLast? = some s.stx.hash := by
  have h0len : (st0 a).length = 0 := by rw [h0]; rfl
  have hgrow : ∀ j (hj : j < outs.length),
      (subsFor a ((outs.get ⟨j, hj⟩).submitted)).length = 1 ∧
        ((outs.get ⟨j, hj⟩).inProgress a).length = (st0 a).length + j + 1 := by
    intro j hj
    have hg := hone j hj
    have hg2 := hg.2
    exact ⟨hg.1, by omega⟩
  have hmain := processRun_nonces env a n hn batches st0 outs hrun hgrow
  intro j hj s hs
  have hm := hmain j hj s hs
  have hm1 := hm.1
  exact ⟨by omega, hm.2.1, hm.2.2⟩

/-- Witness for C1: under `qEnvC1`, running two one-message batches, the
second call's submission for sponsor 7 uses nonce 6 = 5 + 1, and its
snapshot is the post-call `inProgress[7]` ending in its own tx hash. -/
theorem C1_witness :
    subC1.stx.tx.nonce = 5 + 1 ∧ subC1.snap = outC1b.inProgress 7 ∧
      subC1.snap.getLast? = some subC1.stx.hash := by
  have h := C1_nonce_sequencing qEnvC1 (fun _ => []) batchesC1 outsC1 7 5 rfl rfl rfl
    (by decide) 1 (by decide) subC1 (by decide)
  refine ⟨h.1, ?_, h.2.2⟩
  have hb : outsC1.get ⟨1, by decide⟩ = outC1b := rfl
  rw [← hb]
  exact h.2.1

/-- C9: `Process` pairs each rejected message with exactly one error on
every failure path except the per-group sponsor-key lookup: there the
nested double loop over the group's messages appends `len(msgs)` errors
for each message, so a two-message group whose lookup fails (after the
grouping pass succeeded) yields 2 invalid messages but 4 errors. -/
theorem C9_unpaired_errors :
    (groupPhase qEnvC9 [msgC9a, msgC9b] ⟨[], [], [], 0⟩).invalid = [] ∧
      outC9.invalid = [msgC9a, msgC9b] ∧
      outC9.errors = List.replicate 4 (("connection reset").data) ∧
      outC9.invalid.length = 2 ∧ outC9.errors.length = 4 := by
  refine ⟨by decide, by decide, by decide, by decide, by decide⟩
